import Mathlib

/-
Shallow embedding of the SteelWorks Operations Data Consolidation System
(a Node.js/Express/PostgreSQL application).  The cleansing layer
(DataCleaner in dataIngestion.js), the repository layer (models.js), the
validation rule engine (validation.js), the reporting search
(reporting.js) and the ingestion row loops (dataIngestion.js) are
translated to pure Lean functions; the relational store is modelled by
DbState, one list per table, with SERIAL ids modelled by an explicit
counter.  Timestamps that the store fills in with CURRENT_TIMESTAMP
(created_at, detected_date, source_updated_timestamp) play no role in any
of the verified behaviour and are omitted from the row models.
-/

/-- A JavaScript value as it appears in a parsed CSV/XLSX row or as an
argument to a cleansing helper: a string, a number (integral values
suffice here), a boolean, null, undefined, or a native Date holding a
calendar date (year, month, day). -/
inductive JsVal where
  | str (s : String)
  | num (n : Int)
  | boolV (b : Bool)
  | nullV
  | undef
  | dateV (y m d : Nat)
deriving DecidableEq

/-- JavaScript truthiness, used by the alias fallbacks
(record[a] || record[b] || fallback) and the row guards in
dataIngestion.js.  An empty string, the number 0, false, null and
undefined are falsy; every Date object is truthy. -/
def JsVal.truthy : JsVal → Bool
  | .str s => s != ""
  | .num n => n != 0
  | .boolV b => b
  | .nullV => false
  | .undef => false
  | .dateV _ _ _ => true

/-- JavaScript a || b on embedded values. -/
def jsOr (a b : JsVal) : JsVal := if a.truthy then a else b

/-- String.prototype.trim modelled on the character list (leading and
trailing whitespace removed). -/
def jsTrimStr (s : String) : String :=
  String.mk (((s.toList.dropWhile Char.isWhitespace).reverse.dropWhile
    Char.isWhitespace).reverse)

/-- String.prototype.toLowerCase (ASCII range, which is all the code
compares). -/
def jsToLowerStr (s : String) : String :=
  String.mk (s.toList.map Char.toLower)

/-- Value of a digit character. -/
def digitsToNat (cs : List Char) : Nat :=
  cs.foldl (fun a c => a * 10 + (c.toNat - '0'.toNat)) 0

/-- Split a character list at every slash, as String.prototype.split
with separator "/" does. -/
def splitOnSlash : List Char → List (List Char)
  | [] => [[]]
  | c :: rest =>
    let r := splitOnSlash rest
    if c == '/' then [] :: r
    else
      match r with
      | h :: t => (c :: h) :: t
      | [] => [[c]]

/-- The test of the regular expression matching a full ISO date shape,
four digits, dash, two digits, dash, two digits. -/
def isoShape : List Char → Bool
  | [a, b, c, d, e, f, g, h, i, j] =>
    a.isDigit && b.isDigit && c.isDigit && d.isDigit && e == '-' &&
      f.isDigit && g.isDigit && h == '-' && i.isDigit && j.isDigit
  | _ => false

/-- The test of the regular expression matching one or two digits, slash,
one or two digits, slash, four digits. -/
def slashShape (s : String) : Bool :=
  match splitOnSlash s.toList with
  | [m, d, y] =>
    (m.length == 1 || m.length == 2) && m.all Char.isDigit &&
      (d.length == 1 || d.length == 2) && d.all Char.isDigit &&
      y.length == 4 && y.all Char.isDigit
  | _ => false

/-- String.prototype.padStart with target length two and pad character
zero. -/
def pad2 (s : String) : String :=
  if 2 ≤ s.length then s
  else String.mk (List.replicate (2 - s.length) '0') ++ s

/-- Zero-padded decimal rendering of a month or day number. -/
def padNat2 (n : Nat) : String :=
  if n < 10 then "0" ++ toString n else toString n

/-- The date part of Date.prototype.toISOString for a Date holding the
given calendar date. -/
def isoOfYmd (y m d : Nat) : String :=
  toString y ++ "-" ++ padNat2 m ++ "-" ++ padNat2 d

namespace DataCleaner

/-- DataCleaner.trimString from dataIngestion.js: trim a string, pass
every non-string value through unchanged. -/
def trimString : JsVal → JsVal
  | .str s => .str (jsTrimStr s)
  | v => v

/-- The replacement value.replace(r, g) for the pattern of one or more
leading zeros followed by at least one digit, replaced by that digit
group, followed by the JavaScript fallback (result || value).  With z
leading zeros: if the first non-zero character is a digit the zeros are
dropped; otherwise a greedy-backtracking match leaves a single zero when
z is at least two, and no match happens when z is at most one. -/
def removeLeadingZerosStr (s : String) : String :=
  let cs := s.toList
  let z := (cs.takeWhile (· == '0')).length
  let rest := cs.drop z
  let replaced :=
    if z = 0 then s
    else
      match rest with
      | c :: _ =>
        if c.isDigit then String.mk rest
        else if 2 ≤ z then String.mk ('0' :: rest) else s
      | [] => if 2 ≤ z then "0" else s
  if replaced = "" then s else replaced

/-- DataCleaner.removeLeadingZeros from dataIngestion.js: non-string
values pass through unchanged. -/
def removeLeadingZeros : JsVal → JsVal
  | .str s => .str (removeLeadingZerosStr s)
  | v => v

/-- The string branch of DataCleaner.standardizeDate.  An ISO-shaped
trimmed string is returned unchanged; a slash-shaped string is rebuilt
month-first as year-month-day with zero padding.  The subsequent branch
of the source (dataIngestion.js lines 99 to 107, the European-format
attempt through the Date constructor) is guarded by the identical
regular expression after the month-first branch has already returned,
so it is unreachable and contributes nothing here; every other string
yields null. -/
def standardizeDateStr (s : String) : Option String :=
  let trimmed := jsTrimStr s
  if isoShape trimmed.toList then some trimmed
  else if slashShape trimmed then
    match splitOnSlash trimmed.toList with
    | m :: d :: y :: _ =>
      some (String.mk y ++ "-" ++ pad2 (String.mk m) ++ "-" ++ pad2 (String.mk d))
    | _ => none
  else none

/-- DataCleaner.standardizeDate from dataIngestion.js: falsy input yields
null, a Date object yields its ISO date part, a non-string yields null,
and a string goes through the regular-expression branches. -/
def standardizeDate (v : JsVal) : Option String :=
  if !v.truthy then none
  else
    match v with
    | .dateV y m d => some (isoOfYmd y m d)
    | .str s => standardizeDateStr s
    | _ => none

/-- DataCleaner.cleanLotCode from dataIngestion.js: trimString, then
trimmed.replace of all leading zeros with the empty string, then the
fallback (result || zero-string).  The replace call is made on whatever
trimString returned, so a non-string input (null, undefined, a number, a
boolean, a Date) raises a TypeError, which the per-row try/catch of the
ingestion loops turns into a row error. -/
def cleanLotCode (lotCode : JsVal) : Except String String :=
  match trimString lotCode with
  | .str s =>
    let r := String.mk (s.toList.dropWhile (· == '0'))
    .ok (if r = "" then "0" else r)
  | _ => .error "TypeError"

/-- DataCleaner.toBoolean from dataIngestion.js. -/
def toBoolean (value : JsVal) (defaultValue : Bool) : Bool :=
  match value with
  | .boolV b => b
  | .str s =>
    let normalized := jsToLowerStr (jsTrimStr s)
    if ["yes", "y", "true", "pass", "1"].contains normalized then true
    else if ["no", "n", "false", "fail", "0"].contains normalized then false
    else defaultValue
  | _ => defaultValue

/-- String coercion applied by parseInt to its argument. -/
def coerceForParseInt : JsVal → String
  | .str s => s
  | .num n => toString n
  | .boolV b => if b then "true" else "false"
  | .nullV => "null"
  | .undef => "undefined"
  | .dateV y m d => "Date(" ++ isoOfYmd y m d ++ ")"

/-- parseInt(s, 10): skip leading whitespace, read an optional sign and
the maximal run of leading decimal digits; no digits means NaN, here
none. -/
def parseIntStr (s : String) : Option Int :=
  let cs := s.toList.dropWhile Char.isWhitespace
  let signed : Int × List Char :=
    match cs with
    | '-' :: rest => (-1, rest)
    | '+' :: rest => (1, rest)
    | _ => (1, cs)
  let digits := signed.2.takeWhile Char.isDigit
  if digits = [] then none
  else some (signed.1 * Int.ofNat (digitsToNat digits))

/-- DataCleaner.toInteger from dataIngestion.js: a number is floored
(integral numbers are their own floor), anything else goes through
parseInt with NaN falling back to the default. -/
def toInteger (value : JsVal) (defaultValue : Int) : Int :=
  match value with
  | .num n => n
  | v =>
    match parseIntStr (coerceForParseInt v) with
    | some n => n
    | none => defaultValue

end DataCleaner

/-- Modelled from the spec: the generic date-constructor parse that the
spec (section 4.1) says slash-separated values falling through the
month-first rule are handed to.  The host Date constructor is not part
of src/; its documented Node behaviour on numeric slash dates is
month/day/year with two-digit years below 50 mapped into the 2000s and
49 < y < 100 into the 1900s, rejecting out-of-range months and days. -/
def genericDateParse (s : String) : Option String :=
  match splitOnSlash s.toList with
  | [m, d, y] =>
    if m.all Char.isDigit && d.all Char.isDigit && y.all Char.isDigit &&
        !m.isEmpty && !d.isEmpty && !y.isEmpty then
      let mn := digitsToNat m
      let dn := digitsToNat d
      let yn0 := digitsToNat y
      let yn := if yn0 < 50 then yn0 + 2000
                else if yn0 < 100 then yn0 + 1900 else yn0
      if 1 ≤ mn ∧ mn ≤ 12 ∧ 1 ≤ dn ∧ dn ≤ 31 then some (isoOfYmd yn mn dn)
      else none
    else none
  | _ => none

/-- Modelled from the spec: claim C7 reading of canonicalDate — ISO
passes through unchanged, a slash date matching the month-first pattern
is rebuilt month-first, and a slash-separated value failing the
month-first parse falls back to the generic date-constructor parse
before the null marker is returned. -/
def standardizeDateClaim (s : String) : Option String :=
  let trimmed := jsTrimStr s
  if isoShape trimmed.toList then some trimmed
  else if slashShape trimmed then
    match splitOnSlash trimmed.toList with
    | m :: d :: y :: _ =>
      some (String.mk y ++ "-" ++ pad2 (String.mk m) ++ "-" ++ pad2 (String.mk d))
    | _ => none
  else if (splitOnSlash trimmed.toList).length == 3 then genericDateParse trimmed
  else none

/-- A row of the lots table (db/schema.sql): the conformed entity with
the composite business key (lot_code, production_date) and the three
derived boolean flags. -/
structure LotRow where
  id : Nat
  lot_code : String
  production_date : String
  is_pending_inspection : Bool
  has_data_integrity_issue : Bool
  has_date_conflict : Bool
deriving DecidableEq

/-- The identity-relevant data of a lot row: id, code and production
date, which no operation of the system ever mutates. -/
def lotKeyData (l : LotRow) : Nat × String × String :=
  (l.id, l.lot_code, l.production_date)

/-- A row of the production_records table.  Text columns hold whatever
string the ingestion passed through (the store coerces values to text);
the timestamp column is omitted. -/
structure ProductionRow where
  lot_id : Nat
  production_line_id : String
  shift : String
  units_planned : Int
  units_actual : Int
  downtime_minutes : Int
  has_line_issue : Bool
deriving DecidableEq

/-- A row of the quality_inspection_records table. -/
structure QualityRow where
  lot_id : Nat
  inspection_date : String
  is_pass : Bool
  defect_type : String
  defect_count : Int
  inspector_id : String
deriving DecidableEq

/-- A row of the shipping_records table; lot_id is UNIQUE in the
schema. -/
structure ShippingRow where
  lot_id : Nat
  ship_date : String
  destination_state : String
  carrier : String
  qty_shipped : Int
  shipment_status : String
deriving DecidableEq

/-- A row of the data_integrity_flags table (detected_date omitted). -/
structure FlagRow where
  lot_id : Nat
  flag_type : String
  severity : String
  description : String
  is_resolved : Bool
deriving DecidableEq

/-- The relational store: one list per table, in insertion order, plus
the next value of the lots SERIAL id sequence.  The data-source
metadata table is independent of all of this state and is modelled
separately as the snapshot list consumed by checkSourceHealth. -/
structure DbState where
  lots : List LotRow
  productionRecords : List ProductionRow
  qualityRecords : List QualityRow
  shippingRecords : List ShippingRow
  flags : List FlagRow
  nextLotId : Nat
deriving DecidableEq

/-- The store before anything has been ingested. -/
def emptyState : DbState := ⟨[], [], [], [], [], 0⟩

/-- Text coercion the store applies when a non-string JavaScript value
is inserted into a text column.  The ingestion code guards every such
argument with a || fallback, so null and undefined never reach an
insert; they are mapped to the empty string here. -/
def dbText : JsVal → String
  | .str s => s
  | .num n => toString n
  | .boolV b => if b then "true" else "false"
  | .dateV y m d => isoOfYmd y m d
  | .nullV => ""
  | .undef => ""

namespace Lot

/-- The WHERE clause lot_code = $1 AND production_date = $2. -/
def keyMatches (lotCode productionDate : String) (l : LotRow) : Bool :=
  l.lot_code == lotCode && l.production_date == productionDate

/-- Lot.findByCompositeKey from models.js. -/
def findByCompositeKey (s : DbState) (lotCode productionDate : String) :
    Option LotRow :=
  s.lots.find? (keyMatches lotCode productionDate)

/-- Lot.create from models.js: INSERT .. ON CONFLICT (lot_code,
production_date) DO UPDATE SET lot_code = EXCLUDED.lot_code RETURNING *.
On conflict the update writes the identical lot_code, so the existing
row is returned unchanged; otherwise a fresh row is inserted with
is_pending_inspection true and the two issue flags false. -/
def create (s : DbState) (lotCode productionDate : String) :
    DbState × LotRow :=
  match s.lots.find? (keyMatches lotCode productionDate) with
  | some l => (s, l)
  | none =>
    let l : LotRow := ⟨s.nextLotId, lotCode, productionDate, true, false, false⟩
    ({ s with lots := s.lots ++ [l], nextLotId := s.nextLotId + 1 }, l)

/-- The partial update objects passed to Lot.update; only the three
allowed boolean columns can appear. -/
structure Updates where
  is_pending_inspection : Option Bool
  has_data_integrity_issue : Option Bool
  has_date_conflict : Option Bool
deriving DecidableEq

/-- Apply an update object to one lot row. -/
def applyUpdates (u : Updates) (l : LotRow) : LotRow :=
  { l with
    is_pending_inspection :=
      u.is_pending_inspection.getD l.is_pending_inspection,
    has_data_integrity_issue :=
      u.has_data_integrity_issue.getD l.has_data_integrity_issue,
    has_date_conflict := u.has_date_conflict.getD l.has_date_conflict }

/-- Lot.update from models.js: UPDATE lots SET .. WHERE id = $n. -/
def update (s : DbState) (lotId : Nat) (u : Updates) : DbState :=
  { s with
    lots := s.lots.map (fun l => if l.id == lotId then applyUpdates u l else l) }

end Lot

namespace ProductionRecord

/-- ProductionRecord.create from models.js: a plain INSERT. -/
def create (s : DbState) (r : ProductionRow) : DbState :=
  { s with productionRecords := s.productionRecords ++ [r] }

end ProductionRecord

namespace QualityInspectionRecord

/-- Whether any quality inspection row references the lot. -/
def existsForLot (s : DbState) (lotId : Nat) : Bool :=
  s.qualityRecords.any (fun q => q.lot_id == lotId)

/-- QualityInspectionRecord.create from models.js: a plain INSERT. -/
def create (s : DbState) (r : QualityRow) : DbState :=
  { s with qualityRecords := s.qualityRecords ++ [r] }

/-- QualityInspectionRecord.findLotsWithoutQuality from models.js:
lots LEFT JOIN quality rows WHERE the join found nothing. -/
def findLotsWithoutQuality (s : DbState) : List LotRow :=
  s.lots.filter (fun l => !existsForLot s l.id)

end QualityInspectionRecord

namespace ShippingRecord

/-- ShippingRecord.create from models.js: an INSERT against the UNIQUE
lot_id constraint; a second record for the same lot raises, which the
per-row try/catch of the ingestion loop records as a row error. -/
def create (s : DbState) (r : ShippingRow) : Except String DbState :=
  if s.shippingRecords.any (fun x => x.lot_id == r.lot_id) then
    .error "duplicate key value violates unique constraint"
  else .ok { s with shippingRecords := s.shippingRecords ++ [r] }

/-- ShippingRecord.findOrphanedShipments from models.js: shipping rows
joined with their lot, kept when no quality row references the lot. -/
def findOrphanedShipments (s : DbState) : List (ShippingRow × LotRow) :=
  s.shippingRecords.filterMap (fun r =>
    match s.lots.find? (fun l => l.id == r.lot_id) with
    | some l =>
      if QualityInspectionRecord.existsForLot s r.lot_id then none
      else some (r, l)
    | none => none)

end ShippingRecord

namespace DataIntegrityFlag

/-- DataIntegrityFlag.create from models.js: INSERT with is_resolved
false. -/
def create (s : DbState) (lotId : Nat) (flagType severity description : String) :
    DbState :=
  { s with flags := s.flags ++ [⟨lotId, flagType, severity, description, false⟩] }

/-- DataIntegrityFlag.findExisting from models.js: the first unresolved
flag of the given type for the given lot, if any. -/
def findExisting (s : DbState) (lotId : Nat) (flagType : String) :
    Option FlagRow :=
  s.flags.find? (fun f =>
    f.lot_id == lotId && f.flag_type == flagType && f.is_resolved == false)

end DataIntegrityFlag

/-- Chronological comparison of two stored DATE values.  Dates are kept
as their canonical ISO strings, on which the order of the DATE type
coincides with lexicographic character order. -/
def chronoLtList : List Char → List Char → Bool
  | _, [] => false
  | [], _ :: _ => true
  | a :: as, b :: bs => if a < b then true else if b < a then false else chronoLtList as bs

/-- ship_date < production_date as the WHERE clauses compare DATEs. -/
def chronoLt (a b : String) : Bool := chronoLtList a.toList b.toList

/-- The rows of the date-conflict query inlined in
ValidationService.validateDateLogic: shipping JOIN lots ON lot id WHERE
ship_date < production_date, selecting the lot id, lot code, production
date, ship date and destination. -/
structure DateConflictRow where
  id : Nat
  lot_code : String
  production_date : String
  ship_date : String
  destination_state : String
deriving DecidableEq

/-- The date-conflict join of validation.js lines 181 to 194. -/
def findDateConflicts (s : DbState) : List DateConflictRow :=
  s.shippingRecords.filterMap (fun r =>
    match s.lots.find? (fun l => l.id == r.lot_id) with
    | some l =>
      if chronoLt r.ship_date l.production_date then
        some ⟨l.id, l.lot_code, l.production_date, r.ship_date, r.destination_state⟩
      else none
    | none => none)

/-- The per-rule summary object of validation.js (the errors array is
omitted: in this model no storage operation can fail, so the per-lot
try/catch bodies never populate it). -/
structure RuleResult where
  name : String
  flagsCreated : Nat
  flagsSkipped : Nat
deriving DecidableEq

/-- One unit of work of a validation rule: the lot to flag and the
description text of the flag that would be created. -/
structure RuleItem where
  lotId : Nat
  description : String
deriving DecidableEq

/-- The loop body shared verbatim by the three rules of validation.js:
for each scanned item, look for an existing unresolved flag of the rule
type for the lot; if none, create the flag (counting it as created) and
otherwise skip it (counting it as skipped); in both cases re-assert the
rule boolean on the lot via Lot.update. -/
def runRuleLoop (flagType severity : String) (upd : Lot.Updates) :
    DbState → List RuleItem → DbState × Nat × Nat
  | s, [] => (s, 0, 0)
  | s, item :: rest =>
    let afterItem : DbState × Nat × Nat :=
      match DataIntegrityFlag.findExisting s item.lotId flagType with
      | none =>
        (Lot.update
          (DataIntegrityFlag.create s item.lotId flagType severity item.description)
          item.lotId upd, 1, 0)
      | some _ => (Lot.update s item.lotId upd, 0, 1)
    let rec2 := runRuleLoop flagType severity upd afterItem.1 rest
    (rec2.1, afterItem.2.1 + rec2.2.1, afterItem.2.2 + rec2.2.2)

/-- The description template of the pending-inspection rule. -/
def pendingDescription (l : LotRow) : String :=
  "Lot " ++ l.lot_code ++ " produced on " ++ l.production_date ++
    " is pending quality inspection"

/-- The scan list of the pending-inspection rule. -/
def pendingItems (s : DbState) : List RuleItem :=
  (QualityInspectionRecord.findLotsWithoutQuality s).map
    (fun l => ⟨l.id, pendingDescription l⟩)

/-- ValidationService.validatePendingInspections from validation.js. -/
def validatePendingInspections (s : DbState) : DbState × RuleResult :=
  let r := runRuleLoop "Pending Inspection" "Warning" ⟨some true, none, none⟩
    s (pendingItems s)
  (r.1, ⟨"Pending Inspections", r.2.1, r.2.2⟩)

/-- The description template of the orphaned-shipment rule; lot_code
comes from the joined lot row and the destination from the shipping
row. -/
def orphanedDescription (p : ShippingRow × LotRow) : String :=
  "Lot " ++ p.2.lot_code ++ " shipped to " ++ p.1.destination_state ++
    " without quality inspection"

/-- The scan list of the orphaned-shipment rule; the flag is attached to
the lot referenced by the shipping row. -/
def orphanedItems (s : DbState) : List RuleItem :=
  (ShippingRecord.findOrphanedShipments s).map
    (fun p => ⟨p.1.lot_id, orphanedDescription p⟩)

/-- ValidationService.validateOrphanedShipments from validation.js. -/
def validateOrphanedShipments (s : DbState) : DbState × RuleResult :=
  let r := runRuleLoop "Orphaned Shipment" "Critical" ⟨none, some true, none⟩
    s (orphanedItems s)
  (r.1, ⟨"Orphaned Shipments", r.2.1, r.2.2⟩)

/-- The description template of the date-conflict rule. -/
def dateConflictDescription (c : DateConflictRow) : String :=
  "Lot " ++ c.lot_code ++ ": Ship date (" ++ c.ship_date ++
    ") is before production date (" ++ c.production_date ++ ")"

/-- The scan list of the date-conflict rule. -/
def dateConflictItems (s : DbState) : List RuleItem :=
  (findDateConflicts s).map (fun c => ⟨c.id, dateConflictDescription c⟩)

/-- ValidationService.validateDateLogic from validation.js. -/
def validateDateLogic (s : DbState) : DbState × RuleResult :=
  let r := runRuleLoop "Date Conflict" "Error" ⟨none, none, some true⟩
    s (dateConflictItems s)
  (r.1, ⟨"Date Logic Validation", r.2.1, r.2.2⟩)

/-- ValidationService.runAllValidations from validation.js: the three
rules in their fixed order, collecting the three rule results. -/
def runAllValidations (s : DbState) : DbState × List RuleResult :=
  let p := validatePendingInspections s
  let o := validateOrphanedShipments p.1
  let d := validateDateLogic o.1
  (d.1, [p.2, o.2, d.2])

/-- One validation pass viewed as a state transformer (the result list
dropped). -/
def validationPass (s : DbState) : DbState := (runAllValidations s).1

/-- A pre-tokenized input row: field name to raw value, as the CSV/XLSX
readers hand rows to the ingestion service. -/
def RawRow := List (String × JsVal)

/-- record[k]: undefined when the field is absent. -/
def rowGet (r : RawRow) (k : String) : JsVal :=
  match List.find? (fun p => p.1 == k) r with
  | some p => p.2
  | none => JsVal.undef

/-- The per-source ingestion summary of dataIngestion.js. -/
structure IngestResult where
  source : String
  recordsRead : Nat
  recordsIngested : Nat
  errors : List String
deriving DecidableEq

/-- The outcome of one row of an ingestion loop: the successor store
state, whether the row was counted as ingested, and the recorded row
error if any. -/
def RowOutcome := DbState × Bool × Option String

/-- The body of the production-record loop of
DataIngestionService.ingestProductionLogs (dataIngestion.js lines 322
to 362): clean the lot code and date, skip the row with an error when
the cleaned code or date is falsy, find-or-create the lot through the
Lot.create upsert, and insert the production record.  A TypeError from
cleanLotCode on a non-string code lands in the same per-row catch. -/
def ingestProductionRow (s : DbState) (r : RawRow) : RowOutcome :=
  match DataCleaner.cleanLotCode
      (jsOr (rowGet r "Lot ID") (jsOr (rowGet r "LotCode") (.str ""))) with
  | .error e => (s, false, some e)
  | .ok lotCode =>
    let productionDate := DataCleaner.standardizeDate
      (jsOr (rowGet r "Production Date") (jsOr (rowGet r "Date") (.str "")))
    if lotCode == "" || productionDate.getD "" == "" then
      (s, false, some "Invalid lot code or date")
    else
      let created := Lot.create s lotCode (productionDate.getD "")
      let row : ProductionRow :=
        ⟨created.2.id,
         dbText (DataCleaner.trimString
           (jsOr (rowGet r "Production Line") (jsOr (rowGet r "Line") (.str "")))),
         dbText (DataCleaner.trimString (jsOr (rowGet r "Shift") (.str ""))),
         DataCleaner.toInteger
           (jsOr (rowGet r "Units Planned") (jsOr (rowGet r "Planned") (.num 0))) 0,
         DataCleaner.toInteger
           (jsOr (rowGet r "Units Actual") (jsOr (rowGet r "Actual") (.num 0))) 0,
         DataCleaner.toInteger
           (jsOr (rowGet r "Downtime Minutes")
             (jsOr (rowGet r "DowntimeMinutes") (.num 0))) 0,
         DataCleaner.toBoolean
           (jsOr (rowGet r "Line Issue") (jsOr (rowGet r "HasIssue") (.boolV false)))
           false⟩
      (ProductionRecord.create created.1 row, true, none)

/-- The body of the quality-record loop of
DataIngestionService.ingestQualityLogs (dataIngestion.js lines 413 to
458): clean code and inspection date, skip falsy ones with an error,
find the lot by composite key and create it when absent, insert the
quality record, and clear is_pending_inspection on the lot. -/
def ingestQualityRow (s : DbState) (r : RawRow) : RowOutcome :=
  match DataCleaner.cleanLotCode
      (jsOr (rowGet r "Lot ID") (jsOr (rowGet r "LotCode") (.str ""))) with
  | .error e => (s, false, some e)
  | .ok lotCode =>
    let inspectionDate := DataCleaner.standardizeDate
      (jsOr (rowGet r "Inspection Date") (jsOr (rowGet r "Date") (.str "")))
    if lotCode == "" || inspectionDate.getD "" == "" then
      (s, false, some "Invalid lot code or inspection date")
    else
      let d := inspectionDate.getD ""
      let found :=
        match Lot.findByCompositeKey s lotCode d with
        | some lot => (s, lot)
        | none => Lot.create s lotCode d
      let row : QualityRow :=
        ⟨found.2.id, d,
         DataCleaner.toBoolean
           (jsOr (rowGet r "Is Pass") (jsOr (rowGet r "Pass") (.boolV false))) false,
         dbText (DataCleaner.trimString
           (jsOr (rowGet r "Defect Type") (jsOr (rowGet r "DefectType") (.str "")))),
         DataCleaner.toInteger
           (jsOr (rowGet r "Defect Count") (jsOr (rowGet r "DefectCount") (.num 0))) 0,
         dbText (DataCleaner.trimString
           (jsOr (rowGet r "Inspector ID")
             (jsOr (rowGet r "Inspector") (.str "UNKNOWN"))))⟩
      (Lot.update (QualityInspectionRecord.create found.1 row) found.2.id
        ⟨some false, none, none⟩, true, none)

/-- The body of the shipping-record loop of
DataIngestionService.ingestShippingLogs (dataIngestion.js lines 507 to
546): clean code and ship date, skip falsy ones with an error, find the
lot by the composite key built from the SHIP date and create it when
absent (so a freshly created shipping lot carries the ship date as its
production_date), then insert the shipping record; a UNIQUE violation
on lot_id is recorded as a row error, after the lot creation has
already taken effect (each statement commits on its own). -/
def ingestShippingRow (s : DbState) (r : RawRow) : RowOutcome :=
  match DataCleaner.cleanLotCode
      (jsOr (rowGet r "Lot ID") (jsOr (rowGet r "LotCode") (.str ""))) with
  | .error e => (s, false, some e)
  | .ok lotCode =>
    let shipDate := DataCleaner.standardizeDate
      (jsOr (rowGet r "Ship Date") (jsOr (rowGet r "Date") (.str "")))
    if lotCode == "" || shipDate.getD "" == "" then
      (s, false, some "Invalid lot code or ship date")
    else
      let d := shipDate.getD ""
      let found :=
        match Lot.findByCompositeKey s lotCode d with
        | some lot => (s, lot)
        | none => Lot.create s lotCode d
      let row : ShippingRow :=
        ⟨found.2.id, d,
         dbText (DataCleaner.trimString
           (jsOr (rowGet r "Destination State") (jsOr (rowGet r "State") (.str "")))),
         dbText (DataCleaner.trimString (jsOr (rowGet r "Carrier") (.str "UNKNOWN"))),
         DataCleaner.toInteger
           (jsOr (rowGet r "Qty Shipped") (jsOr (rowGet r "Quantity") (.num 0))) 0,
         dbText (DataCleaner.trimString (jsOr (rowGet r "Status") (.str "In Transit")))⟩
      match ShippingRecord.create found.1 row with
      | .ok s2 => (s2, true, none)
      | .error e => (found.1, false, some e)

/-- The for-of loop shared by the three ingestion services: rows are
processed in order, each through its per-row body, accumulating the
ingested count and the error list; a failed row never stops the rest of
the batch. -/
def ingestRows (perRow : DbState → RawRow → RowOutcome) :
    DbState → List RawRow → DbState × Nat × List String
  | s, [] => (s, 0, [])
  | s, r :: rest =>
    let out := perRow s r
    let next := ingestRows perRow out.1 rest
    (next.1, (if out.2.1 then 1 else 0) + next.2.1,
     (match out.2.2 with | some e => [e] | none => []) ++ next.2.2)

/-- DataIngestionService.ingestProductionLogs on an already-read batch
of rows (file reading is the out-of-scope collaborator). -/
def ingestProductionLogs (s : DbState) (records : List RawRow) :
    DbState × IngestResult :=
  let r := ingestRows ingestProductionRow s records
  (r.1, ⟨"Production Logs", records.length, r.2.1, r.2.2⟩)

/-- DataIngestionService.ingestQualityLogs on an already-read batch. -/
def ingestQualityLogs (s : DbState) (records : List RawRow) :
    DbState × IngestResult :=
  let r := ingestRows ingestQualityRow s records
  (r.1, ⟨"Quality Inspection", records.length, r.2.1, r.2.2⟩)

/-- DataIngestionService.ingestShippingLogs on an already-read batch. -/
def ingestShippingLogs (s : DbState) (records : List RawRow) :
    DbState × IngestResult :=
  let r := ingestRows ingestShippingRow s records
  (r.1, ⟨"Shipping Logs", records.length, r.2.1, r.2.2⟩)

/-- DataIngestionService.ingestAllData: the three sources in their fixed
order (production, quality, shipping). -/
def ingestAllData (s : DbState) (prodRows qualRows shipRows : List RawRow) :
    DbState :=
  (ingestShippingLogs
    (ingestQualityLogs (ingestProductionLogs s prodRows).1 qualRows).1
    shipRows).1

/-- The columns of the joined search row that the status derivation of
ReportingService.searchLotByCode reads: the lot flags plus the
left-joined shipment status (NULL when the lot has no shipping record)
and quality pass flag (NULL when the lot has no quality record). -/
structure SearchRow where
  has_date_conflict : Bool
  shipment_status : Option String
  quality_pass : Option Bool
  is_pending_inspection : Bool
deriving DecidableEq

/-- The currentStatus derivation of ReportingService.searchLotByCode
(reporting.js lines 312 to 326).  The shipping test is the JavaScript
truthiness of row.shipment_status, which a NULL (absent record) fails
and which an empty stored status string also fails; the quality tests
are strict comparisons against false and true, which NULL fails. -/
def deriveStatus (row : SearchRow) : String :=
  if row.has_date_conflict then "Data Conflict"
  else if row.shipment_status.getD "" != "" then row.shipment_status.getD ""
  else if row.quality_pass == some false then "Failed Quality"
  else if row.quality_pass == some true then "Passed Quality"
  else if row.is_pending_inspection then "Pending Inspection"
  else "In Production"

/-- ORDER BY production_date DESC followed by taking rows[0]: the lot
with the chronologically greatest production date, earliest-inserted
first among equals (the SQL order among equals is unspecified; this
fixes the stored order, which only matters when two lots of the same
code share a production date). -/
def latestByProductionDate : List LotRow → Option LotRow
  | [] => none
  | l :: rest =>
    match latestByProductionDate rest with
    | none => some l
    | some m =>
      if chronoLt l.production_date m.production_date then some m else some l

/-- ReportingService.searchLotByCode reduced to the data the status
derivation consumes: the case-insensitive code match, the pick of the
latest production date, the left joins to the first matching shipping
and quality rows, and the derived status. -/
def searchLotByCode (s : DbState) (lotCode : String) :
    Option (LotRow × String) :=
  let candidates :=
    s.lots.filter (fun l => jsToLowerStr l.lot_code == jsToLowerStr lotCode)
  match latestByProductionDate candidates with
  | none => none
  | some l =>
    let row : SearchRow :=
      ⟨l.has_date_conflict,
       (s.shippingRecords.find? (fun x => x.lot_id == l.id)).map
         (fun x => x.shipment_status),
       (s.qualityRecords.find? (fun q => q.lot_id == l.id)).map
         (fun q => q.is_pass),
       l.is_pending_inspection⟩
    some (l, deriveStatus row)

/-- Modelled from the spec: the C3 wording of the precedence list, in
which the second step is triggered by the PRESENCE of a shipping record
and yields that record literal shipment status string. -/
def deriveStatusClaim (row : SearchRow) : String :=
  if row.has_date_conflict then "Data Conflict"
  else
    match row.shipment_status with
    | some st => st
    | none =>
      if row.quality_pass == some false then "Failed Quality"
      else if row.quality_pass == some true then "Passed Quality"
      else if row.is_pending_inspection then "Pending Inspection"
      else "In Production"

/-- Modelled from the spec: the amended C3 precedence, identical to the
claim wording except that a present shipping record with an empty
status string is treated as absent (the JavaScript truthiness test). -/
def deriveStatusAmendedSpec (row : SearchRow) : String :=
  if row.has_date_conflict then "Data Conflict"
  else
    match row.shipment_status with
    | some st =>
      if st != "" then st
      else if row.quality_pass == some false then "Failed Quality"
      else if row.quality_pass == some true then "Passed Quality"
      else if row.is_pending_inspection then "Pending Inspection"
      else "In Production"
    | none =>
      if row.quality_pass == some false then "Failed Quality"
      else if row.quality_pass == some true then "Passed Quality"
      else if row.is_pending_inspection then "Pending Inspection"
      else "In Production"

/-- A row of the data_source_metadatas table. The last-updated timestamp
is held as milliseconds since the epoch, which is what the Date
subtraction in checkSourceHealth computes with. -/
structure SourceMetadataRow where
  source_name : String
  source_location : String
  file_format : String
  last_updated_timestamp : Int
  refresh_status : String
deriving DecidableEq

/-- One element of the health array built by checkSourceHealth. -/
structure SourceHealthRow where
  sourceName : String
  lastUpdatedTimestamp : Int
  timeSinceUpdateMinutes : Int
  refreshStatus : String
  sourceLocation : String
  fileFormat : String
deriving DecidableEq

/-- The per-source body of the map in
ValidationService.checkSourceHealth: the source is Stale when now minus
its last update strictly exceeds the threshold in milliseconds,
regardless of the stored refresh_status, which is passed through
otherwise; Math.floor division renders the minutes. -/
def healthSnapshot (now staleThresholdMs : Int) (source : SourceMetadataRow) :
    SourceHealthRow :=
  let timeSinceUpdate := now - source.last_updated_timestamp
  ⟨source.source_name, source.last_updated_timestamp,
   Int.fdiv timeSinceUpdate 60000,
   if staleThresholdMs < timeSinceUpdate then "Stale" else source.refresh_status,
   source.source_location, source.file_format⟩

/-- ValidationService.checkSourceHealth from validation.js (lines 272 to
301), over the snapshot that getAllSources returned, at the given
current time; the threshold parameter is in hours (the source default
is 24). -/
def checkSourceHealth (sources : List SourceMetadataRow) (now : Int)
    (staleThresholdHours : Int) : List SourceHealthRow :=
  sources.map (healthSnapshot now (staleThresholdHours * 60 * 60 * 1000))

/-- The identity invariant of pipeline-ingested state (claim C2): every
lot id is below the id counter, every shipping record references an id
below the counter, lot ids are pairwise distinct, and every shipping
record carries exactly the production date of the lot it references
(because the shipping reconciler resolves its lot by the composite key
built from the SHIP date). -/
def ShipDateInvariant (s : DbState) : Prop :=
  (∀ l ∈ s.lots, l.id < s.nextLotId) ∧
  (∀ r ∈ s.shippingRecords, r.lot_id < s.nextLotId) ∧
  s.lots.Pairwise (fun a b => a.id ≠ b.id) ∧
  (∀ r ∈ s.shippingRecords, ∀ l ∈ s.lots,
    r.lot_id = l.id → r.ship_date = l.production_date)

/-- The at-most-one-unresolved-flag invariant of claim C5: for every lot
id and flag type, at most one unresolved flag row. -/
def AtMostOneUnresolved (s : DbState) : Prop :=
  ∀ lotId ftype,
    (s.flags.countP (fun f =>
      f.lot_id == lotId && f.flag_type == ftype && f.is_resolved == false)) ≤ 1

/-- The concrete production row of the end-to-end scenarios: lot code
00LOT-9 (cleansing to LOT-9) produced on 02/10/2026 (canonicalizing to
2026-02-10). -/
def scenarioProductionRow : RawRow :=
  [("Lot ID", JsVal.str "00LOT-9"), ("Line", JsVal.str "P1"),
   ("Planned", JsVal.num 100), ("Actual", JsVal.num 90),
   ("Date", JsVal.str "02/10/2026")]

/-- The concrete shipping row of end-to-end scenario 3: same lot code,
ship date 2026-02-05, five days before the production date of the
existing lot. -/
def scenarioShippingRow : RawRow :=
  [("Lot ID", JsVal.str "LOT-9"), ("Ship Date", JsVal.str "2026-02-05"),
   ("State", JsVal.str "CA"), ("Carrier", JsVal.str "FedEx"),
   ("Quantity", JsVal.num 90), ("Status", JsVal.str "Shipped")]

/-- The store after scenario 3 has been ingested: the production row,
then the shipping row. -/
def scenario3Ingested : DbState :=
  (ingestShippingLogs (ingestProductionLogs emptyState [scenarioProductionRow]).1
    [scenarioShippingRow]).1

/-- A lot id is covered for a rule when an unresolved flag of the rule
type exists for it and every lot row carrying that id already has the
rule boolean asserted (so the rule loop would skip the flag and write
the boolean idempotently). -/
def RuleCovered (ft : String) (upd : Lot.Updates) (s : DbState) (x : Nat) :
    Prop :=
  (DataIntegrityFlag.findExisting s x ft).isSome = true ∧
  ∀ l ∈ s.lots, l.id = x → Lot.applyUpdates upd l = l

theorem digitNotWhitespace (c : Char) (h : c.isDigit = true) :
    c.isWhitespace = false := by
  by_contra hw
  rw [Bool.not_eq_false] at hw
  simp only [Char.isWhitespace, Bool.or_eq_true, decide_eq_true_eq] at hw
  rcases hw with ((rfl | rfl) | rfl) | rfl <;> exact absurd h (by decide)

theorem isoShape_trim_eq (s : String) (h : isoShape s.toList = true) :
    jsTrimStr s = s := by
  unfold jsTrimStr
  match hs : s.toList with
  | [a, b, c, d, e, f, g, h2, i, j] =>
    rw [hs] at h
    simp only [isoShape, Bool.and_eq_true] at h
    rw [List.dropWhile_cons_of_neg (by simp [digitNotWhitespace a (by tauto)])]
    have hrev : ([a, b, c, d, e, f, g, h2, i, j]).reverse =
        [j, i, h2, g, f, e, d, c, b, a] := by simp
    rw [hrev]
    rw [List.dropWhile_cons_of_neg (by simp [digitNotWhitespace j (by tauto)])]
    have : ([j, i, h2, g, f, e, d, c, b, a]).reverse =
        [a, b, c, d, e, f, g, h2, i, j] := by simp
    rw [this, ← hs]
    rfl
  | [] => rw [hs] at h; simp [isoShape] at h
  | [x1] => rw [hs] at h; simp [isoShape] at h
  | [x1, x2] => rw [hs] at h; simp [isoShape] at h
  | [x1, x2, x3] => rw [hs] at h; simp [isoShape] at h
  | [x1, x2, x3, x4] => rw [hs] at h; simp [isoShape] at h
  | [x1, x2, x3, x4, x5] => rw [hs] at h; simp [isoShape] at h
  | [x1, x2, x3, x4, x5, x6] => rw [hs] at h; simp [isoShape] at h
  | [x1, x2, x3, x4, x5, x6, x7] => rw [hs] at h; simp [isoShape] at h
  | [x1, x2, x3, x4, x5, x6, x7, x8] => rw [hs] at h; simp [isoShape] at h
  | [x1, x2, x3, x4, x5, x6, x7, x8, x9] => rw [hs] at h; simp [isoShape] at h
  | x1 :: x2 :: x3 :: x4 :: x5 :: x6 :: x7 :: x8 :: x9 :: x10 :: x11 :: rest =>
    rw [hs] at h; simp [isoShape] at h

/-- Claim C3 (counterexample): the status derivation does not return the
literal status string of a present shipping record when that stored
status is the empty string (reachable, since the ingestion trims
record.Status and a whitespace status trims to the empty string): the
code tests JavaScript truthiness of row.shipment_status, so it falls
through to the quality branch instead of reporting the empty status. -/
theorem deriveStatus_empty_status_counterexample :
    deriveStatus ⟨false, some "", some false, false⟩ = "Failed Quality" ∧
    deriveStatusClaim ⟨false, some "", some false, false⟩ = "" ∧
    deriveStatus ⟨false, some "", some false, false⟩ ≠
      deriveStatusClaim ⟨false, some "", some false, false⟩ := by
  refine ⟨rfl, rfl, ?_⟩
  decide

/-- Claim C3 (amended): the status derived by lot search follows the
fixed precedence, first match wins — hasDateConflict gives Data
Conflict; else a present shipping record with a NONEMPTY status string
gives that literal status (a present record with an empty status is
treated as absent); else failed quality, passed quality, pending
inspection, otherwise In Production.  In particular any row with
hasDateConflict true derives Data Conflict no matter what else it
holds. -/
theorem deriveStatus_precedence (row : SearchRow) :
    deriveStatus row = deriveStatusAmendedSpec row ∧
    deriveStatus { row with has_date_conflict := true } = "Data Conflict" := by
  constructor
  · rcases row with ⟨hdc, st, qp, pend⟩
    rcases st with _ | v
    · rfl
    · by_cases hv : v = "" <;>
        simp [deriveStatus, deriveStatusAmendedSpec, hv]
  · simp [deriveStatus]

/-- Claim C7 (counterexample): the claimed generic date-constructor
fallback never runs.  The slash-separated value 2/10/26 fails the
month-first pattern (its year is not four digits), so under the claim
it would be handed to the generic date parse, which accepts it; the
source instead returns the null marker directly, because the fallback
branch is guarded by the same regular expression as the month-first
branch after that branch has already returned. -/
theorem standardizeDate_no_fallback_counterexample :
    DataCleaner.standardizeDate (JsVal.str "2/10/26") = none ∧
    genericDateParse "2/10/26" = some "2026-02-10" ∧
    standardizeDateClaim "2/10/26" = some "2026-02-10" ∧
    DataCleaner.standardizeDate (JsVal.str "2/10/26") ≠
      standardizeDateClaim "2/10/26" := by
  refine ⟨by decide, by decide, by decide, by decide⟩

/-- Claim C7 (amended): date canonicalization returns ISO-format input
unchanged; a slash-separated value matching the one-or-two digits,
slash, one-or-two digits, slash, four digits pattern is always rebuilt
month-first (in particular 02/10/2026 canonicalizes to 2026-02-10,
without any validation of the month or day ranges); and every other
value yields the null marker directly — the generic date-constructor
fallback of the source is unreachable. -/
theorem standardizeDate_amended :
    (∀ s, isoShape s.toList = true →
      DataCleaner.standardizeDate (JsVal.str s) = some s) ∧
    (∀ s m d y, isoShape (jsTrimStr s).toList = false →
      slashShape (jsTrimStr s) = true →
      splitOnSlash (jsTrimStr s).toList = [m, d, y] →
      DataCleaner.standardizeDate (JsVal.str s) =
        some (String.mk y ++ "-" ++ pad2 (String.mk m) ++ "-" ++
          pad2 (String.mk d))) ∧
    DataCleaner.standardizeDate (JsVal.str "02/10/2026") = some "2026-02-10" ∧
    (∀ s, isoShape (jsTrimStr s).toList = false →
      slashShape (jsTrimStr s) = false →
      DataCleaner.standardizeDate (JsVal.str s) = none) := by
  refine ⟨?_, ?_, by decide, ?_⟩
  · intro s h
    have hne : s ≠ "" := by
      intro he; subst he; simp [isoShape] at h
    have htrim := isoShape_trim_eq s h
    simp only [String.toList] at h
    simp [DataCleaner.standardizeDate, DataCleaner.standardizeDateStr,
      JsVal.truthy, hne, htrim, h]
  · intro s m d y hiso hslash hsplit
    have hne : s ≠ "" := by
      intro he; subst he; simp [jsTrimStr] at hslash; exact absurd hslash (by decide)
    simp only [String.toList] at hiso hsplit
    simp [DataCleaner.standardizeDate, DataCleaner.standardizeDateStr,
      JsVal.truthy, hne, hiso, hslash, hsplit]
  · intro s hiso hslash
    by_cases hne : s = ""
    · subst hne; decide
    · simp only [String.toList] at hiso
      simp [DataCleaner.standardizeDate, DataCleaner.standardizeDateStr,
        JsVal.truthy, hne, hiso, hslash]

/-- Claim C7 (witness): the amended statement applied at the inputs
2026-02-10 (ISO pass-through), 02/10/2026 (month-first) and
10-Feb-2026 (no fallback, null directly). -/
theorem standardizeDate_amended_witness :
    DataCleaner.standardizeDate (JsVal.str "2026-02-10") = some "2026-02-10" ∧
    DataCleaner.standardizeDate (JsVal.str "02/10/2026") =
      some ("2026" ++ "-" ++ pad2 "02" ++ "-" ++ pad2 "10") ∧
    DataCleaner.standardizeDate (JsVal.str "10-Feb-2026") = none := by
  refine ⟨standardizeDate_amended.1 "2026-02-10" (by decide), ?_, ?_⟩
  · exact standardizeDate_amended.2.1 "02/10/2026"
      ['0', '2'] ['1', '0'] ['2', '0', '2', '6'] (by decide) (by decide) (by decide)
  · exact standardizeDate_amended.2.2.2 "10-Feb-2026" (by decide) (by decide)

/-- Claim C8 (counterexample): cleanLotCode is not total — on null input
(a missing value) the source calls replace on the result of trimString,
which passed null through unchanged, raising a TypeError instead of
returning a result. -/
theorem cleanLotCode_null_throws :
    DataCleaner.cleanLotCode JsVal.nullV = Except.error "TypeError" := rfl

/-- Claim C8 (amended): trimString, removeLeadingZeros, date
canonicalization, toBoolean and toInteger are total, returning a result
for every input including empty, missing (null or undefined) and
non-string values; cleanLotCode returns a result for every STRING input
(including the empty string, which cleans to the zero string) but
raises a TypeError on every non-string input, which the ingestion row
loops catch as a per-row error. -/
theorem normalizers_totality (v : JsVal) (b : Bool) (n : Int) :
    (match v with
     | JsVal.str _ => ∃ r, DataCleaner.cleanLotCode v = Except.ok r
     | _ => DataCleaner.cleanLotCode v = Except.error "TypeError") ∧
    (∃ w, DataCleaner.trimString v = w) ∧
    (∃ w, DataCleaner.removeLeadingZeros v = w) ∧
    (∃ w, DataCleaner.standardizeDate v = w) ∧
    (∃ w, DataCleaner.toBoolean v b = w) ∧
    (∃ w, DataCleaner.toInteger v n = w) ∧
    DataCleaner.trimString JsVal.nullV = JsVal.nullV ∧
    DataCleaner.trimString JsVal.undef = JsVal.undef ∧
    DataCleaner.removeLeadingZeros JsVal.nullV = JsVal.nullV ∧
    DataCleaner.standardizeDate JsVal.nullV = none ∧
    DataCleaner.standardizeDate JsVal.undef = none ∧
    DataCleaner.standardizeDate (JsVal.str "") = none ∧
    DataCleaner.toBoolean JsVal.nullV b = b ∧
    DataCleaner.toBoolean JsVal.undef b = b ∧
    DataCleaner.toInteger JsVal.nullV n = n ∧
    DataCleaner.toInteger JsVal.undef n = n ∧
    DataCleaner.toInteger (JsVal.str "") n = n ∧
    DataCleaner.cleanLotCode (JsVal.str "") = Except.ok "0" := by
  refine ⟨?_, ⟨_, rfl⟩, ⟨_, rfl⟩, ⟨_, rfl⟩, ⟨_, rfl⟩, ⟨_, rfl⟩,
    rfl, rfl, rfl, rfl, rfl, rfl, rfl, rfl, rfl, rfl, rfl, rfl⟩
  rcases v with s | m | c | _ | _ | ⟨y, mo, d⟩
  · exact ⟨_, rfl⟩
  all_goals rfl

/-- Claim C10: for every stored source, the health check with a given
threshold reports Stale whenever now minus the last-updated time
strictly exceeds the threshold in milliseconds, regardless of the
stored refresh_status, and passes the stored status through otherwise;
the snapshot of every stored source appears in the output, and a source
last updated 30 hours ago with stored status Healthy reports Stale
under a 24-hour threshold. -/
theorem checkSourceHealth_stale_rule (sources : List SourceMetadataRow)
    (now th : Int) (src : SourceMetadataRow) (hmem : src ∈ sources) :
    healthSnapshot now (th * 60 * 60 * 1000) src ∈
      checkSourceHealth sources now th ∧
    (th * 60 * 60 * 1000 < now - src.last_updated_timestamp →
      (healthSnapshot now (th * 60 * 60 * 1000) src).refreshStatus = "Stale") ∧
    (now - src.last_updated_timestamp ≤ th * 60 * 60 * 1000 →
      (healthSnapshot now (th * 60 * 60 * 1000) src).refreshStatus =
        src.refresh_status) ∧
    (∀ nm loc fmt,
      (checkSourceHealth [⟨nm, loc, fmt, now - 30 * 60 * 60 * 1000, "Healthy"⟩]
        now 24).map (fun x => x.refreshStatus) = ["Stale"]) := by
  refine ⟨List.mem_map_of_mem _ hmem, ?_, ?_, ?_⟩
  · intro h
    simp [healthSnapshot, if_pos h]
  · intro h
    simp [healthSnapshot, if_neg (not_lt.mpr h)]
  · intro nm loc fmt
    have harith : now - (now - 30 * 60 * 60 * 1000) = 108000000 := by ring
    simp [checkSourceHealth, healthSnapshot, harith]

/-- Claim C10 (witness): the stale rule applied to a concrete snapshot,
one source last updated 30 hours before time 200000000000 with stored
status Healthy, threshold 24 hours: reported Stale. -/
theorem checkSourceHealth_stale_rule_witness :
    (healthSnapshot 200000000000 (24 * 60 * 60 * 1000)
        ⟨"Production Logs", "p", "CSV", 200000000000 - 108000000, "Healthy"⟩).refreshStatus
      = "Stale" := by
  exact (checkSourceHealth_stale_rule
    [⟨"Production Logs", "p", "CSV", 200000000000 - 108000000, "Healthy"⟩]
    200000000000 24 _ (by simp)).2.1 (by decide)

/-- Claim C6 (counterexample): a production row with a missing lot code
and a valid date is NOT skipped.  cleanLotCode turns the empty alias
fallback into the zero string, which passes the row guard, so a lot
with code zero is created, the row counts as ingested, and no per-row
error is recorded. -/
theorem empty_lot_code_not_skipped_counterexample :
    (ingestProductionLogs emptyState
      [[("Date", JsVal.str "2026-02-10")]]).1.lots.map lotKeyData =
      [(0, "0", "2026-02-10")] ∧
    (ingestProductionLogs emptyState
      [[("Date", JsVal.str "2026-02-10")]]).2.recordsIngested = 1 ∧
    (ingestProductionLogs emptyState
      [[("Date", JsVal.str "2026-02-10")]]).2.errors = [] := by
  refine ⟨by decide, by decide, by decide⟩

/-- Claim C6 (amended): a row whose date value does not canonicalize is
recorded as a per-row error and skipped — the store is untouched by it,
it is not counted as ingested, and the remaining rows of the batch are
still processed exactly as they would have been without it.  A row
whose lot code is empty or missing is NOT rejected: cleanLotCode maps
the empty string to the zero string, which passes the guard, so such a
row resolves (and if needed creates) a lot with code zero. -/
theorem malformed_date_row_skipped (s : DbState) (r : RawRow)
    (rest : List RawRow)
    (hdate : DataCleaner.standardizeDate
      (jsOr (rowGet r "Production Date")
        (jsOr (rowGet r "Date") (JsVal.str ""))) = none) :
    (∃ e, ingestProductionRow s r = (s, false, some e)) ∧
    (ingestProductionLogs s (r :: rest)).1 = (ingestProductionLogs s rest).1 ∧
    (ingestProductionLogs s (r :: rest)).2.recordsIngested =
      (ingestProductionLogs s rest).2.recordsIngested ∧
    (∃ e, (ingestProductionLogs s (r :: rest)).2.errors =
      e :: (ingestProductionLogs s rest).2.errors) ∧
    DataCleaner.cleanLotCode (JsVal.str "") = Except.ok "0" := by
  have hrow : ∃ e, ingestProductionRow s r = (s, false, some e) := by
    unfold ingestProductionRow
    cases hc : DataCleaner.cleanLotCode
        (jsOr (rowGet r "Lot ID") (jsOr (rowGet r "LotCode") (JsVal.str ""))) with
    | error e => exact ⟨e, by simp [hc]⟩
    | ok code => exact ⟨"Invalid lot code or date", by simp [hc, hdate]⟩
  obtain ⟨e, he⟩ := hrow
  refine ⟨⟨e, he⟩, ?_, ?_, ⟨e, ?_⟩, rfl⟩ <;>
    simp [ingestProductionLogs, ingestRows, he]

/-- Claim C6 (witness): the amended statement applied to a concrete
batch, a row with an unparseable date followed by a good row: the bad
row leaves the final store identical to the batch without it. -/
theorem malformed_date_row_skipped_witness :
    (ingestProductionLogs emptyState
      [[("Lot ID", JsVal.str "LOT-1"), ("Date", JsVal.str "13/45/20")],
       [("Lot ID", JsVal.str "LOT-2"), ("Date", JsVal.str "2026-02-10")]]).1 =
    (ingestProductionLogs emptyState
      [[("Lot ID", JsVal.str "LOT-2"), ("Date", JsVal.str "2026-02-10")]]).1 :=
  (malformed_date_row_skipped emptyState
    [("Lot ID", JsVal.str "LOT-1"), ("Date", JsVal.str "13/45/20")]
    [[("Lot ID", JsVal.str "LOT-2"), ("Date", JsVal.str "2026-02-10")]]
    (by decide)).2.1

theorem keyData_id {a b : LotRow} (h : lotKeyData a = lotKeyData b) :
    a.id = b.id := congrArg (fun t => t.1) h

theorem keyData_code {a b : LotRow} (h : lotKeyData a = lotKeyData b) :
    a.lot_code = b.lot_code := congrArg (fun t => t.2.1) h

theorem keyData_date {a b : LotRow} (h : lotKeyData a = lotKeyData b) :
    a.production_date = b.production_date := congrArg (fun t => t.2.2) h

theorem applyUpdates_keyData (u : Lot.Updates) (l : LotRow) :
    lotKeyData (Lot.applyUpdates u l) = lotKeyData l := rfl

theorem keyMatches_factors (c d : String) {a b : LotRow}
    (h : lotKeyData a = lotKeyData b) :
    Lot.keyMatches c d a = Lot.keyMatches c d b := by
  unfold Lot.keyMatches
  rw [keyData_code h, keyData_date h]

theorem idMatches_factors (x : Nat) {a b : LotRow}
    (h : lotKeyData a = lotKeyData b) :
    (a.id == x) = (b.id == x) := by rw [keyData_id h]

theorem map_keyData_map (f : LotRow → LotRow)
    (hf : ∀ l, lotKeyData (f l) = lotKeyData l) (ls : List LotRow) :
    (ls.map f).map lotKeyData = ls.map lotKeyData := by
  induction ls with
  | nil => rfl
  | cons a t ih => simp [hf, ih]

theorem find?_keyData_congr (p : LotRow → Bool)
    (hp : ∀ a b, lotKeyData a = lotKeyData b → p a = p b) :
    ∀ (ls lt : List LotRow), ls.map lotKeyData = lt.map lotKeyData →
      Option.map lotKeyData (ls.find? p) = Option.map lotKeyData (lt.find? p)
  | [], [], _ => rfl
  | [], _ :: _, h => by simp at h
  | _ :: _, [], h => by simp at h
  | a :: at', b :: bt, h => by
    simp only [List.map_cons, List.cons.injEq] at h
    obtain ⟨h1, h2⟩ := h
    simp only [List.find?]
    rw [hp a b h1]
    cases hb : p b with
    | true => simp [h1]
    | false => exact find?_keyData_congr p hp at' bt h2

theorem update_lots_keyData (s : DbState) (x : Nat) (u : Lot.Updates) :
    (Lot.update s x u).lots.map lotKeyData = s.lots.map lotKeyData := by
  unfold Lot.update
  exact map_keyData_map _
    (fun l => by by_cases hx : l.id == x <;> simp [hx, applyUpdates_keyData]) s.lots

theorem find?_append_none {α : Type} {p : α → Bool} {l₁ : List α}
    (l₂ : List α) (h : l₁.find? p = none) :
    (l₁ ++ l₂).find? p = l₂.find? p := by
  induction l₁ with
  | nil => rfl
  | cons a t ih =>
    cases ha : p a with
    | true => rw [List.find?_cons_of_pos _ ha] at h; exact absurd h (by simp)
    | false =>
      rw [List.find?_cons_of_neg _ (by simp [ha])] at h
      rw [List.cons_append, List.find?_cons_of_neg _ (by simp [ha])]
      exact ih h

theorem opt_id_of_keyData {x y : Option LotRow}
    (h : Option.map lotKeyData x = Option.map lotKeyData y) :
    Option.map (fun l => l.id) x = Option.map (fun l => l.id) y := by
  cases x with
  | none => cases y with
    | none => rfl
    | some b => simp at h
  | some a =>
    cases y with
    | none => simp at h
    | some b =>
      have hab : lotKeyData a = lotKeyData b := by simpa using h
      simpa using keyData_id hab

theorem findByCompositeKey_def (s : DbState) (c d : String) :
    Lot.findByCompositeKey s c d = s.lots.find? (Lot.keyMatches c d) := rfl

theorem isSome_of_map_keyData {x : Option LotRow} {k : Nat × String × String}
    (h : Option.map lotKeyData x = some k) : x.isSome = true := by
  cases x with
  | none => simp at h
  | some a => rfl

/-- Claim C9: lot identity resolution is order-independent.  For any
starting store and any production and quality rows whose cleaned lot
code and canonicalized date agree on the composite key, ingesting
quality-then-production yields the same final lot id for that key as
production-then-quality, and the lot exists after either order: the
first arrival creates it (production through the upsert of Lot.create,
quality through find-then-create) and the second one finds it. -/
theorem identity_resolution_order_independent (s : DbState) (p q : RawRow)
    (code date : String)
    (hpc : DataCleaner.cleanLotCode
      (jsOr (rowGet p "Lot ID") (jsOr (rowGet p "LotCode") (JsVal.str ""))) =
      Except.ok code)
    (hpd : DataCleaner.standardizeDate
      (jsOr (rowGet p "Production Date") (jsOr (rowGet p "Date") (JsVal.str ""))) =
      some date)
    (hqc : DataCleaner.cleanLotCode
      (jsOr (rowGet q "Lot ID") (jsOr (rowGet q "LotCode") (JsVal.str ""))) =
      Except.ok code)
    (hqd : DataCleaner.standardizeDate
      (jsOr (rowGet q "Inspection Date") (jsOr (rowGet q "Date") (JsVal.str ""))) =
      some date)
    (hcode : code ≠ "") (hdate : date ≠ "") :
    Option.map (fun l => l.id)
        (Lot.findByCompositeKey
          (ingestQualityRow (ingestProductionRow s p).1 q).1 code date) =
      Option.map (fun l => l.id)
        (Lot.findByCompositeKey
          (ingestProductionRow (ingestQualityRow s q).1 p).1 code date) ∧
    (Lot.findByCompositeKey
      (ingestQualityRow (ingestProductionRow s p).1 q).1 code date).isSome
      = true := by
  have hProd : ∀ t : DbState,
      (ingestProductionRow t p).1.lots = (Lot.create t code date).1.lots := by
    intro t
    unfold ingestProductionRow
    simp [hpc, hpd, hcode, hdate, ProductionRecord.create]
  have hQualKey : ∀ t : DbState,
      (ingestQualityRow t q).1.lots.map lotKeyData =
        (match Lot.findByCompositeKey t code date with
         | some _ => t.lots.map lotKeyData
         | none => (Lot.create t code date).1.lots.map lotKeyData) := by
    intro t
    unfold ingestQualityRow
    simp only [hqc, hqd, Option.getD_some]
    have hguard : (code == "" || date == "") = false := by simp [hcode, hdate]
    simp only [hguard, Bool.false_eq_true, if_false]
    cases hf : Lot.findByCompositeKey t code date with
    | some lot =>
      simp [hf, QualityInspectionRecord.create, update_lots_keyData]
    | none =>
      simp [hf, QualityInspectionRecord.create, update_lots_keyData]
  have hκ : ∀ ls lt : List LotRow, ls.map lotKeyData = lt.map lotKeyData →
      Option.map lotKeyData (ls.find? (Lot.keyMatches code date)) =
        Option.map lotKeyData (lt.find? (Lot.keyMatches code date)) :=
    fun ls lt h => find?_keyData_congr (Lot.keyMatches code date)
      (fun a b hab => keyMatches_factors code date hab) ls lt h
  cases hfind : Lot.findByCompositeKey s code date with
  | some l =>
    have hcr : Lot.create s code date = (s, l) := by
      unfold Lot.create
      rw [show s.lots.find? (Lot.keyMatches code date) = some l from hfind]
    have hA1 : (ingestProductionRow s p).1.lots = s.lots := by rw [hProd s, hcr]
    have hfA : Lot.findByCompositeKey (ingestProductionRow s p).1 code date =
        some l := by
      rw [findByCompositeKey_def, hA1]; exact hfind
    have hA2 : (ingestQualityRow (ingestProductionRow s p).1 q).1.lots.map
        lotKeyData = s.lots.map lotKeyData := by
      rw [hQualKey _]
      simp only [hfA, hA1]
    have hAfind : Option.map lotKeyData
        ((ingestQualityRow (ingestProductionRow s p).1 q).1.lots.find?
          (Lot.keyMatches code date)) = some (lotKeyData l) := by
      rw [hκ _ _ hA2,
        show s.lots.find? (Lot.keyMatches code date) = some l from hfind]
      rfl
    have hB1 : (ingestQualityRow s q).1.lots.map lotKeyData =
        s.lots.map lotKeyData := by
      rw [hQualKey s]
      simp only [hfind]
    have hBfindQ : Option.map lotKeyData
        ((ingestQualityRow s q).1.lots.find? (Lot.keyMatches code date)) =
          some (lotKeyData l) := by
      rw [hκ _ _ hB1,
        show s.lots.find? (Lot.keyMatches code date) = some l from hfind]
      rfl
    obtain ⟨l', hl', hkl'⟩ : ∃ l',
        (ingestQualityRow s q).1.lots.find? (Lot.keyMatches code date) =
          some l' ∧ lotKeyData l' = lotKeyData l := by
      cases hx : (ingestQualityRow s q).1.lots.find? (Lot.keyMatches code date)
        with
      | none => rw [hx] at hBfindQ; simp at hBfindQ
      | some a => rw [hx] at hBfindQ; exact ⟨a, rfl, by simpa using hBfindQ⟩
    have hcrB : Lot.create (ingestQualityRow s q).1 code date =
        ((ingestQualityRow s q).1, l') := by
      unfold Lot.create
      rw [hl']
    have hB2 : (ingestProductionRow (ingestQualityRow s q).1 p).1.lots =
        (ingestQualityRow s q).1.lots := by
      rw [hProd _, hcrB]
    have hBfind : Option.map lotKeyData
        ((ingestProductionRow (ingestQualityRow s q).1 p).1.lots.find?
          (Lot.keyMatches code date)) = some (lotKeyData l) := by
      rw [hB2]; exact hBfindQ
    exact ⟨opt_id_of_keyData (hAfind.trans hBfind.symm),
      isSome_of_map_keyData hAfind⟩
  | none =>
    have hcr : Lot.create s code date =
        ({ s with
            lots := s.lots ++ [(⟨s.nextLotId, code, date, true, false, false⟩ : LotRow)],
            nextLotId := s.nextLotId + 1 },
         (⟨s.nextLotId, code, date, true, false, false⟩ : LotRow)) := by
      unfold Lot.create
      rw [show s.lots.find? (Lot.keyMatches code date) = none from hfind]
    have hkm : Lot.keyMatches code date
        (⟨s.nextLotId, code, date, true, false, false⟩ : LotRow) = true := by
      simp [Lot.keyMatches]
    have hfindn : (s.lots ++ [(⟨s.nextLotId, code, date, true, false, false⟩ : LotRow)]).find?
        (Lot.keyMatches code date) =
          some (⟨s.nextLotId, code, date, true, false, false⟩ : LotRow) := by
      rw [find?_append_none _
        (show s.lots.find? (Lot.keyMatches code date) = none from hfind)]
      simp [List.find?, hkm]
    have hA1 : (ingestProductionRow s p).1.lots =
        s.lots ++ [(⟨s.nextLotId, code, date, true, false, false⟩ : LotRow)] := by
      rw [hProd s, hcr]
    have hfA : Lot.findByCompositeKey (ingestProductionRow s p).1 code date =
        some (⟨s.nextLotId, code, date, true, false, false⟩ : LotRow) := by
      rw [findByCompositeKey_def, hA1]; exact hfindn
    have hA2 : (ingestQualityRow (ingestProductionRow s p).1 q).1.lots.map
        lotKeyData =
        (s.lots ++ [(⟨s.nextLotId, code, date, true, false, false⟩ : LotRow)]).map
          lotKeyData := by
      rw [hQualKey _]
      simp only [hfA, hA1]
    have hAfind : Option.map lotKeyData
        ((ingestQualityRow (ingestProductionRow s p).1 q).1.lots.find?
          (Lot.keyMatches code date)) =
        some (lotKeyData (⟨s.nextLotId, code, date, true, false, false⟩ : LotRow)) := by
      rw [hκ _ _ hA2, hfindn]
      rfl
    have hB1 : (ingestQualityRow s q).1.lots.map lotKeyData =
        (s.lots ++ [(⟨s.nextLotId, code, date, true, false, false⟩ : LotRow)]).map
          lotKeyData := by
      rw [hQualKey s]
      simp only [hfind, hcr]
    have hBfindQ : Option.map lotKeyData
        ((ingestQualityRow s q).1.lots.find? (Lot.keyMatches code date)) =
        some (lotKeyData (⟨s.nextLotId, code, date, true, false, false⟩ : LotRow)) := by
      rw [hκ _ _ hB1, hfindn]
      rfl
    obtain ⟨l', hl', hkl'⟩ : ∃ l',
        (ingestQualityRow s q).1.lots.find? (Lot.keyMatches code date) =
          some l' ∧ lotKeyData l' =
            lotKeyData (⟨s.nextLotId, code, date, true, false, false⟩ : LotRow) := by
      cases hx : (ingestQualityRow s q).1.lots.find? (Lot.keyMatches code date)
        with
      | none => rw [hx] at hBfindQ; simp at hBfindQ
      | some a => rw [hx] at hBfindQ; exact ⟨a, rfl, by simpa using hBfindQ⟩
    have hcrB : Lot.create (ingestQualityRow s q).1 code date =
        ((ingestQualityRow s q).1, l') := by
      unfold Lot.create
      rw [hl']
    have hB2 : (ingestProductionRow (ingestQualityRow s q).1 p).1.lots =
        (ingestQualityRow s q).1.lots := by
      rw [hProd _, hcrB]
    have hBfind : Option.map lotKeyData
        ((ingestProductionRow (ingestQualityRow s q).1 p).1.lots.find?
          (Lot.keyMatches code date)) =
        some (lotKeyData (⟨s.nextLotId, code, date, true, false, false⟩ : LotRow)) := by
      rw [hB2]; exact hBfindQ
    exact ⟨opt_id_of_keyData (hAfind.trans hBfind.symm),
      isSome_of_map_keyData hAfind⟩

/-- Claim C9 (witness): order independence applied to concrete rows for
the key (LOT-9, 2026-02-10) over the empty store: both orders resolve
the key to lot id zero. -/
theorem identity_resolution_order_independent_witness :
    Option.map (fun l => l.id)
        (Lot.findByCompositeKey
          (ingestQualityRow (ingestProductionRow emptyState
            scenarioProductionRow).1
            [("Lot ID", JsVal.str "LOT-9"), ("Date", JsVal.str "2026-02-10"),
             ("Pass", JsVal.str "Fail")]).1 "LOT-9" "2026-02-10") =
      Option.map (fun l => l.id)
        (Lot.findByCompositeKey
          (ingestProductionRow (ingestQualityRow emptyState
            [("Lot ID", JsVal.str "LOT-9"), ("Date", JsVal.str "2026-02-10"),
             ("Pass", JsVal.str "Fail")]).1
            scenarioProductionRow).1 "LOT-9" "2026-02-10") :=
  (identity_resolution_order_independent emptyState scenarioProductionRow
    [("Lot ID", JsVal.str "LOT-9"), ("Date", JsVal.str "2026-02-10"),
     ("Pass", JsVal.str "Fail")]
    "LOT-9" "2026-02-10" rfl (by decide) rfl (by decide)
    (by decide) (by decide)).1

theorem chronoLtList_irrefl (cs : List Char) : chronoLtList cs cs = false := by
  induction cs with
  | nil => rfl
  | cons a t ih =>
    simp only [chronoLtList]
    rw [if_neg (lt_irrefl a), if_neg (lt_irrefl a)]
    exact ih

theorem chronoLt_irrefl (a : String) : chronoLt a a = false :=
  chronoLtList_irrefl a.toList

theorem pairwise_id_unique {L : List LotRow}
    (h : L.Pairwise (fun a b => a.id ≠ b.id)) :
    ∀ a ∈ L, ∀ b ∈ L, a.id = b.id → a = b := by
  induction L with
  | nil => intro a ha; simp at ha
  | cons x t ih =>
    rw [List.pairwise_cons] at h
    intro a ha b hb hab
    rcases List.mem_cons.mp ha with rfl | ha'
    · rcases List.mem_cons.mp hb with rfl | hb'
      · rfl
      · exact absurd hab (h.1 b hb')
    · rcases List.mem_cons.mp hb with rfl | hb'
      · exact absurd hab.symm (h.1 a ha')
      · exact ih h.2 a ha' b hb' hab

theorem shipInv_lotCreate {s : DbState} (c d : String)
    (h : ShipDateInvariant s) : ShipDateInvariant (Lot.create s c d).1 := by
  obtain ⟨hbl, hbs, hpw, heq⟩ := h
  unfold Lot.create
  cases hf : s.lots.find? (Lot.keyMatches c d) with
  | some l => exact ⟨hbl, hbs, hpw, heq⟩
  | none =>
    refine ⟨?_, ?_, ?_, ?_⟩
    · intro l hl
      rcases List.mem_append.mp hl with hl' | hl'
      · exact Nat.lt_succ_of_lt (hbl l hl')
      · simp at hl'; subst hl'; exact Nat.lt_succ_self _
    · intro r hr; exact Nat.lt_succ_of_lt (hbs r hr)
    · rw [List.pairwise_append]
      refine ⟨hpw, List.pairwise_singleton _ _, ?_⟩
      intro a ha b hb
      simp at hb; subst hb
      exact Nat.ne_of_lt (hbl a ha)
    · intro r hr l hl hid
      rcases List.mem_append.mp hl with hl' | hl'
      · exact heq r hr l hl' hid
      · simp at hl'; subst hl'
        exact absurd hid (Nat.ne_of_lt (hbs r hr))

theorem shipInv_lotUpdate {s : DbState} (x : Nat) (u : Lot.Updates)
    (h : ShipDateInvariant s) : ShipDateInvariant (Lot.update s x u) := by
  obtain ⟨hbl, hbs, hpw, heq⟩ := h
  unfold Lot.update
  refine ⟨?_, hbs, ?_, ?_⟩
  · intro l hl
    obtain ⟨l0, hl0, rfl⟩ := List.mem_map.mp hl
    by_cases hx : l0.id == x <;> simp [hx] <;> exact hbl l0 hl0
  · rw [List.pairwise_map]
    refine hpw.imp_of_mem ?_
    intro a b _ _ hab
    by_cases ha : a.id == x <;> by_cases hb : b.id == x <;>
      simp [ha, hb, Lot.applyUpdates] <;> exact hab
  · intro r hr l hl hid
    obtain ⟨l0, hl0, rfl⟩ := List.mem_map.mp hl
    by_cases hx : l0.id == x <;> simp [hx] at hid ⊢
    · have hid0 : r.lot_id = l0.id := by
        simpa [Lot.applyUpdates] using hid
      have := heq r hr l0 hl0 hid0
      simpa [Lot.applyUpdates] using this
    · exact heq r hr l0 hl0 hid

theorem shipInv_prodCreate {s : DbState} (r : ProductionRow)
    (h : ShipDateInvariant s) : ShipDateInvariant (ProductionRecord.create s r) :=
  h

theorem shipInv_qualCreate {s : DbState} (r : QualityRow)
    (h : ShipDateInvariant s) :
    ShipDateInvariant (QualityInspectionRecord.create s r) := h

theorem shipInv_flagCreate {s : DbState} (x : Nat) (ft sev desc : String)
    (h : ShipDateInvariant s) :
    ShipDateInvariant (DataIntegrityFlag.create s x ft sev desc) := h

theorem shipInv_ingestProductionRow {s : DbState} (r : RawRow)
    (h : ShipDateInvariant s) :
    ShipDateInvariant (ingestProductionRow s r).1 := by
  unfold ingestProductionRow
  cases hc : DataCleaner.cleanLotCode
      (jsOr (rowGet r "Lot ID") (jsOr (rowGet r "LotCode") (JsVal.str ""))) with
  | error e => exact h
  | ok code =>
    simp only
    by_cases hg : (code == "" ||
        (DataCleaner.standardizeDate (jsOr (rowGet r "Production Date")
          (jsOr (rowGet r "Date") (JsVal.str "")))).getD "" == "") = true
    · simp [hg]
      exact h
    · simp only [hg, Bool.false_eq_true, if_false]
      exact shipInv_prodCreate _ (shipInv_lotCreate _ _ h)

theorem shipInv_ingestQualityRow {s : DbState} (r : RawRow)
    (h : ShipDateInvariant s) :
    ShipDateInvariant (ingestQualityRow s r).1 := by
  unfold ingestQualityRow
  cases hc : DataCleaner.cleanLotCode
      (jsOr (rowGet r "Lot ID") (jsOr (rowGet r "LotCode") (JsVal.str ""))) with
  | error e => exact h
  | ok code =>
    simp only
    by_cases hg : (code == "" ||
        (DataCleaner.standardizeDate (jsOr (rowGet r "Inspection Date")
          (jsOr (rowGet r "Date") (JsVal.str "")))).getD "" == "") = true
    · simp [hg]
      exact h
    · simp only [hg, Bool.false_eq_true, if_false]
      cases hf : Lot.findByCompositeKey s code
          ((DataCleaner.standardizeDate (jsOr (rowGet r "Inspection Date")
            (jsOr (rowGet r "Date") (JsVal.str "")))).getD "") with
      | some lot =>
        simp only [hf]
        exact shipInv_lotUpdate _ _ (shipInv_qualCreate _ h)
      | none =>
        simp only [hf]
        exact shipInv_lotUpdate _ _
          (shipInv_qualCreate _ (shipInv_lotCreate _ _ h))

theorem shipInv_shippingInsertOk {t : DbState} {row : ShippingRow} {L : LotRow}
    (h : ShipDateInvariant t) (hmem : L ∈ t.lots) (hid : row.lot_id = L.id)
    (hdate : row.ship_date = L.production_date) {t2 : DbState}
    (hok : ShippingRecord.create t row = Except.ok t2) :
    ShipDateInvariant t2 := by
  obtain ⟨hbl, hbs, hpw, heq⟩ := h
  unfold ShippingRecord.create at hok
  by_cases hdup : t.shippingRecords.any (fun x => x.lot_id == row.lot_id) = true
  · rw [if_pos hdup] at hok; exact absurd hok (by simp)
  · rw [if_neg hdup] at hok
    obtain rfl : { t with shippingRecords := t.shippingRecords ++ [row] } = t2 := by
      simpa using hok
    refine ⟨hbl, ?_, hpw, ?_⟩
    · intro r hr
      rcases List.mem_append.mp hr with hr' | hr'
      · exact hbs r hr'
      · simp at hr'; subst hr'
        rw [hid]; exact hbl L hmem
    · intro r hr l hl hid2
      rcases List.mem_append.mp hr with hr' | hr'
      · exact heq r hr' l hl hid2
      · simp at hr'; subst hr'
        have hLl : L = l :=
          pairwise_id_unique hpw L hmem l hl (by rw [← hid, hid2])
        rw [hdate, hLl]

theorem shipInv_ingestShippingRow {s : DbState} (r : RawRow)
    (h : ShipDateInvariant s) :
    ShipDateInvariant (ingestShippingRow s r).1 := by
  unfold ingestShippingRow
  cases hc : DataCleaner.cleanLotCode
      (jsOr (rowGet r "Lot ID") (jsOr (rowGet r "LotCode") (JsVal.str ""))) with
  | error e => exact h
  | ok code =>
    simp only
    by_cases hg : (code == "" ||
        (DataCleaner.standardizeDate (jsOr (rowGet r "Ship Date")
          (jsOr (rowGet r "Date") (JsVal.str "")))).getD "" == "") = true
    · simp [hg]
      exact h
    · simp only [hg, Bool.false_eq_true, if_false]
      cases hf : Lot.findByCompositeKey s code
          ((DataCleaner.standardizeDate (jsOr (rowGet r "Ship Date")
            (jsOr (rowGet r "Date") (JsVal.str "")))).getD "") with
      | some lot =>
        simp only [hf]
        have hmem : lot ∈ s.lots := List.mem_of_find?_eq_some hf
        have hkm : Lot.keyMatches code
            ((DataCleaner.standardizeDate (jsOr (rowGet r "Ship Date")
              (jsOr (rowGet r "Date") (JsVal.str "")))).getD "") lot = true :=
          List.find?_some hf
        have hpd : lot.production_date =
            (DataCleaner.standardizeDate (jsOr (rowGet r "Ship Date")
              (jsOr (rowGet r "Date") (JsVal.str "")))).getD "" := by
          unfold Lot.keyMatches at hkm
          simp only [Bool.and_eq_true, beq_iff_eq] at hkm
          exact hkm.2
        cases hcr : ShippingRecord.create s
            ⟨lot.id,
             (DataCleaner.standardizeDate (jsOr (rowGet r "Ship Date")
               (jsOr (rowGet r "Date") (JsVal.str "")))).getD "",
             dbText (DataCleaner.trimString (jsOr (rowGet r "Destination State")
               (jsOr (rowGet r "State") (JsVal.str "")))),
             dbText (DataCleaner.trimString (jsOr (rowGet r "Carrier")
               (JsVal.str "UNKNOWN"))),
             DataCleaner.toInteger (jsOr (rowGet r "Qty Shipped")
               (jsOr (rowGet r "Quantity") (JsVal.num 0))) 0,
             dbText (DataCleaner.trimString (jsOr (rowGet r "Status")
               (JsVal.str "In Transit")))⟩ with
        | ok s2 =>
          simp only [hcr]
          exact shipInv_shippingInsertOk h hmem rfl hpd.symm hcr
        | error e =>
          simp only [hcr]
          exact h
      | none =>
        simp only [hf]
        have hinv1 : ShipDateInvariant (Lot.create s code
            ((DataCleaner.standardizeDate (jsOr (rowGet r "Ship Date")
              (jsOr (rowGet r "Date") (JsVal.str "")))).getD "")).1 :=
          shipInv_lotCreate _ _ h
        have hmem : (Lot.create s code
            ((DataCleaner.standardizeDate (jsOr (rowGet r "Ship Date")
              (jsOr (rowGet r "Date") (JsVal.str "")))).getD "")).2 ∈
            (Lot.create s code
              ((DataCleaner.standardizeDate (jsOr (rowGet r "Ship Date")
                (jsOr (rowGet r "Date") (JsVal.str "")))).getD "")).1.lots := by
          unfold Lot.create
          rw [show s.lots.find? (Lot.keyMatches code
            ((DataCleaner.standardizeDate (jsOr (rowGet r "Ship Date")
              (jsOr (rowGet r "Date") (JsVal.str "")))).getD "")) = none from hf]
          simp
        have hpd : (Lot.create s code
            ((DataCleaner.standardizeDate (jsOr (rowGet r "Ship Date")
              (jsOr (rowGet r "Date") (JsVal.str "")))).getD "")).2.production_date =
            (DataCleaner.standardizeDate (jsOr (rowGet r "Ship Date")
              (jsOr (rowGet r "Date") (JsVal.str "")))).getD "" := by
          unfold Lot.create
          rw [show s.lots.find? (Lot.keyMatches code
            ((DataCleaner.standardizeDate (jsOr (rowGet r "Ship Date")
              (jsOr (rowGet r "Date") (JsVal.str "")))).getD "")) = none from hf]
        cases hcr : ShippingRecord.create (Lot.create s code
            ((DataCleaner.standardizeDate (jsOr (rowGet r "Ship Date")
              (jsOr (rowGet r "Date") (JsVal.str "")))).getD "")).1
            ⟨(Lot.create s code
                ((DataCleaner.standardizeDate (jsOr (rowGet r "Ship Date")
                  (jsOr (rowGet r "Date") (JsVal.str "")))).getD "")).2.id,
             (DataCleaner.standardizeDate (jsOr (rowGet r "Ship Date")
               (jsOr (rowGet r "Date") (JsVal.str "")))).getD "",
             dbText (DataCleaner.trimString (jsOr (rowGet r "Destination State")
               (jsOr (rowGet r "State") (JsVal.str "")))),
             dbText (DataCleaner.trimString (jsOr (rowGet r "Carrier")
               (JsVal.str "UNKNOWN"))),
             DataCleaner.toInteger (jsOr (rowGet r "Qty Shipped")
               (jsOr (rowGet r "Quantity") (JsVal.num 0))) 0,
             dbText (DataCleaner.trimString (jsOr (rowGet r "Status")
               (JsVal.str "In Transit")))⟩ with
        | ok s2 =>
          simp only [hcr]
          exact shipInv_shippingInsertOk hinv1 hmem rfl hpd.symm hcr
        | error e =>
          simp only [hcr]
          exact hinv1

theorem shipInv_ingestRows (perRow : DbState → RawRow → RowOutcome)
    (hstep : ∀ (t : DbState) (r : RawRow), ShipDateInvariant t →
      ShipDateInvariant (perRow t r).1) :
    ∀ (rows : List RawRow) (s : DbState), ShipDateInvariant s →
      ShipDateInvariant (ingestRows perRow s rows).1
  | [], _, h => h
  | r :: rest, s, h =>
    shipInv_ingestRows perRow hstep rest (perRow s r).1 (hstep s r h)

theorem shipInv_runRuleLoop (ft sev : String) (upd : Lot.Updates) :
    ∀ (items : List RuleItem) (s : DbState), ShipDateInvariant s →
      ShipDateInvariant (runRuleLoop ft sev upd s items).1
  | [], s, h => h
  | item :: rest, s, h => by
    unfold runRuleLoop
    cases hx : DataIntegrityFlag.findExisting s item.lotId ft with
    | none =>
      simp only [hx]
      exact shipInv_runRuleLoop ft sev upd rest _
        (shipInv_lotUpdate _ _ (shipInv_flagCreate _ _ _ _ h))
    | some f =>
      simp only [hx]
      exact shipInv_runRuleLoop ft sev upd rest _ (shipInv_lotUpdate _ _ h)

theorem shipInv_validationPass {s : DbState} (h : ShipDateInvariant s) :
    ShipDateInvariant (validationPass s) := by
  unfold validationPass runAllValidations validatePendingInspections
    validateOrphanedShipments validateDateLogic
  exact shipInv_runRuleLoop _ _ _ _ _
    (shipInv_runRuleLoop _ _ _ _ _ (shipInv_runRuleLoop _ _ _ _ _ h))

theorem findDateConflicts_empty_of_inv {s : DbState}
    (h : ShipDateInvariant s) : findDateConflicts s = [] := by
  obtain ⟨hbl, hbs, hpw, heq⟩ := h
  unfold findDateConflicts
  rw [List.filterMap_eq_nil_iff]
  intro r hr
  cases hf : s.lots.find? (fun l => l.id == r.lot_id) with
  | none => simp only [hf]
  | some l =>
    simp only [hf]
    have hmem : l ∈ s.lots := List.mem_of_find?_eq_some hf
    have hid : r.lot_id = l.id := by
      have h2 : l.id = r.lot_id := by simpa using List.find?_some hf
      exact h2.symm
    have hdate : r.ship_date = l.production_date := heq r hr l hmem hid
    rw [hdate, chronoLt_irrefl]
    rfl

theorem validateDateLogic_noop_of_inv {s : DbState}
    (h : ShipDateInvariant s) :
    validateDateLogic s = (s, ⟨"Date Logic Validation", 0, 0⟩) := by
  unfold validateDateLogic dateConflictItems
  rw [findDateConflicts_empty_of_inv h]
  rfl

/-- Claim C2: every shipping record created through the ingestion
pipeline is attached to a lot resolved by the composite key (cleaned
lot code, ship date), so that lot production_date always equals the
record ship_date; the pipeline (production, quality, shipping
ingestion, in any batch sizes) and the validation pass preserve this
invariant, and on such state the date-conflict condition ship_date <
production_date is unsatisfiable: the rule query returns no rows, so
validateDateLogic creates no flag, skips nothing, and leaves the store
untouched (in particular it sets has_date_conflict on no lot). -/
theorem pipeline_ship_date_invariant (s : DbState)
    (prodRows qualRows shipRows : List RawRow) (h : ShipDateInvariant s) :
    ShipDateInvariant (ingestAllData s prodRows qualRows shipRows) ∧
    (∀ r ∈ (ingestAllData s prodRows qualRows shipRows).shippingRecords,
      ∀ l ∈ (ingestAllData s prodRows qualRows shipRows).lots,
        r.lot_id = l.id → r.ship_date = l.production_date) ∧
    findDateConflicts (ingestAllData s prodRows qualRows shipRows) = [] ∧
    validateDateLogic (ingestAllData s prodRows qualRows shipRows) =
      (ingestAllData s prodRows qualRows shipRows,
       ⟨"Date Logic Validation", 0, 0⟩) ∧
    ShipDateInvariant (validationPass (ingestAllData s prodRows qualRows
      shipRows)) := by
  have h1 : ShipDateInvariant (ingestAllData s prodRows qualRows shipRows) := by
    unfold ingestAllData ingestShippingLogs ingestQualityLogs
      ingestProductionLogs
    exact shipInv_ingestRows _ (fun t r ht => shipInv_ingestShippingRow r ht) _ _
      (shipInv_ingestRows _ (fun t r ht => shipInv_ingestQualityRow r ht) _ _
        (shipInv_ingestRows _ (fun t r ht => shipInv_ingestProductionRow r ht)
          _ _ h))
  exact ⟨h1, h1.2.2.2, findDateConflicts_empty_of_inv h1,
    validateDateLogic_noop_of_inv h1, shipInv_validationPass h1⟩

/-- Claim C2 (witness): the invariant applied to the concrete scenario
pipeline over the empty store — the date rule finds nothing and is a
no-op there. -/
theorem pipeline_ship_date_invariant_witness :
    validateDateLogic (ingestAllData emptyState [scenarioProductionRow] []
      [scenarioShippingRow]) =
    (ingestAllData emptyState [scenarioProductionRow] [] [scenarioShippingRow],
     ⟨"Date Logic Validation", 0, 0⟩) :=
  (pipeline_ship_date_invariant emptyState [scenarioProductionRow] []
    [scenarioShippingRow]
    (by refine ⟨?_, ?_, ?_, ?_⟩ <;> simp [emptyState])).2.2.2.1

theorem map_id_of_mem {α : Type} {f : α → α} :
    ∀ {l : List α}, (∀ x ∈ l, f x = x) → l.map f = l
  | [], _ => rfl
  | a :: t, h => by
    rw [List.map_cons, h a (by simp), map_id_of_mem (fun x hx => h x (by simp [hx]))]

theorem find?_append_some {α : Type} {p : α → Bool} {l₁ : List α} {f : α}
    (l₂ : List α) (h : l₁.find? p = some f) :
    (l₁ ++ l₂).find? p = some f := by
  induction l₁ with
  | nil => simp at h
  | cons a t ih =>
    cases ha : p a with
    | true =>
      rw [List.find?_cons_of_pos _ ha] at h
      rw [List.cons_append, List.find?_cons_of_pos _ ha]
      exact h
    | false =>
      rw [List.find?_cons_of_neg _ (by simp [ha])] at h
      rw [List.cons_append, List.find?_cons_of_neg _ (by simp [ha])]
      exact ih h

theorem applyUpdates_idem (u : Lot.Updates) (l : LotRow) :
    Lot.applyUpdates u (Lot.applyUpdates u l) = Lot.applyUpdates u l := by
  rcases u with ⟨a, b, c⟩
  rcases a <;> rcases b <;> rcases c <;> simp [Lot.applyUpdates]

theorem ruleCovered_flagCreate {ft : String} {upd : Lot.Updates} {s : DbState}
    {x : Nat} (y : Nat) (ft2 sev2 desc : String)
    (h : RuleCovered ft upd s x) :
    RuleCovered ft upd (DataIntegrityFlag.create s y ft2 sev2 desc) x := by
  obtain ⟨hflag, hfix⟩ := h
  refine ⟨?_, hfix⟩
  unfold DataIntegrityFlag.findExisting at hflag ⊢
  unfold DataIntegrityFlag.create
  cases hx : s.flags.find? (fun f =>
      f.lot_id == x && f.flag_type == ft && f.is_resolved == false) with
  | none => rw [hx] at hflag; simp at hflag
  | some f => rw [find?_append_some _ hx]; rfl

theorem ruleCovered_lotUpdate {ft : String} {upd : Lot.Updates} {s : DbState}
    {x : Nat} (y : Nat) {upd2 : Lot.Updates}
    (hcomm : ∀ l : LotRow, Lot.applyUpdates upd l = l →
      Lot.applyUpdates upd (Lot.applyUpdates upd2 l) = Lot.applyUpdates upd2 l)
    (h : RuleCovered ft upd s x) :
    RuleCovered ft upd (Lot.update s y upd2) x := by
  obtain ⟨hflag, hfix⟩ := h
  refine ⟨hflag, ?_⟩
  intro l hl hid
  unfold Lot.update at hl
  obtain ⟨l0, hl0, rfl⟩ := List.mem_map.mp hl
  by_cases hy : l0.id == y
  · simp only [hy, if_true] at hid ⊢
    have hid0 : l0.id = x := by
      simpa [Lot.applyUpdates] using hid
    exact hcomm l0 (hfix l0 hl0 hid0)
  · simp only [hy, Bool.false_eq_true, if_false] at hid ⊢
    exact hfix l0 hl0 hid

theorem ruleCovered_runRuleLoop {ft : String} {upd : Lot.Updates}
    (ft2 sev2 : String) {upd2 : Lot.Updates}
    (hcomm : ∀ l : LotRow, Lot.applyUpdates upd l = l →
      Lot.applyUpdates upd (Lot.applyUpdates upd2 l) = Lot.applyUpdates upd2 l) :
    ∀ (items : List RuleItem) (s : DbState) (x : Nat),
      RuleCovered ft upd s x →
      RuleCovered ft upd (runRuleLoop ft2 sev2 upd2 s items).1 x
  | [], s, x, h => h
  | item :: rest, s, x, h => by
    unfold runRuleLoop
    cases hx : DataIntegrityFlag.findExisting s item.lotId ft2 with
    | none =>
      simp only [hx]
      exact ruleCovered_runRuleLoop ft2 sev2 hcomm rest _ x
        (ruleCovered_lotUpdate _ hcomm
          (ruleCovered_flagCreate _ _ _ _ h))
    | some f =>
      simp only [hx]
      exact ruleCovered_runRuleLoop ft2 sev2 hcomm rest _ x
        (ruleCovered_lotUpdate _ hcomm h)

theorem ruleCovered_estab_step {ft sev : String} {upd : Lot.Updates}
    (s : DbState) (x : Nat) (desc : String) :
    RuleCovered ft upd
      (match DataIntegrityFlag.findExisting s x ft with
       | none =>
         Lot.update (DataIntegrityFlag.create s x ft sev desc) x upd
       | some _ => Lot.update s x upd) x := by
  cases hx : DataIntegrityFlag.findExisting s x ft with
  | none =>
    refine ⟨?_, ?_⟩
    · unfold DataIntegrityFlag.findExisting DataIntegrityFlag.create Lot.update
      rw [find?_append_none _
        (show s.flags.find? (fun f =>
          f.lot_id == x && f.flag_type == ft && f.is_resolved == false) = none
          from hx)]
      simp [List.find?]
    · intro l hl hid
      unfold Lot.update DataIntegrityFlag.create at hl
      obtain ⟨l0, hl0, rfl⟩ := List.mem_map.mp hl
      by_cases hy : l0.id == x
      · simp only [hy, if_true]
        exact applyUpdates_idem upd l0
      · simp only [hy, Bool.false_eq_true, if_false] at hid ⊢
        exact absurd hid (by simpa using hy)
  | some f =>
    refine ⟨?_, ?_⟩
    · unfold DataIntegrityFlag.findExisting at hx ⊢
      unfold Lot.update
      simp only
      rw [hx]
      rfl
    · intro l hl hid
      unfold Lot.update at hl
      obtain ⟨l0, hl0, rfl⟩ := List.mem_map.mp hl
      by_cases hy : l0.id == x
      · simp only [hy, if_true]
        exact applyUpdates_idem upd l0
      · simp only [hy, Bool.false_eq_true, if_false] at hid ⊢
        exact absurd hid (by simpa using hy)

theorem ruleCovered_estab {ft sev : String} {upd : Lot.Updates}
    (hcomm : ∀ l : LotRow, Lot.applyUpdates upd l = l →
      Lot.applyUpdates upd (Lot.applyUpdates upd l) = Lot.applyUpdates upd l) :
    ∀ (items : List RuleItem) (s : DbState),
      ∀ it ∈ items, RuleCovered ft upd (runRuleLoop ft sev upd s items).1 it.lotId
  | [], s, it, hit => by simp at hit
  | item :: rest, s, it, hit => by
    unfold runRuleLoop
    rcases List.mem_cons.mp hit with rfl | hit'
    · cases hx : DataIntegrityFlag.findExisting s it.lotId ft with
      | none =>
        simp only [hx]
        refine ruleCovered_runRuleLoop ft sev hcomm rest _ it.lotId ?_
        have := @ruleCovered_estab_step ft sev upd s it.lotId it.description
        rw [hx] at this
        exact this
      | some f =>
        simp only [hx]
        refine ruleCovered_runRuleLoop ft sev hcomm rest _ it.lotId ?_
        have := @ruleCovered_estab_step ft sev upd s it.lotId it.description
        rw [hx] at this
        exact this
    · cases hx : DataIntegrityFlag.findExisting s item.lotId ft with
      | none =>
        simp only [hx]
        exact ruleCovered_estab hcomm rest _ it hit'
      | some f =>
        simp only [hx]
        exact ruleCovered_estab hcomm rest _ it hit'

theorem dbState_eta (s : DbState) : { s with lots := s.lots } = s := rfl

theorem runRuleLoop_fixpoint {ft sev : String} {upd : Lot.Updates} :
    ∀ (items : List RuleItem) (s : DbState),
      (∀ it ∈ items, RuleCovered ft upd s it.lotId) →
      runRuleLoop ft sev upd s items = (s, 0, items.length)
  | [], s, _ => rfl
  | item :: rest, s, h => by
    obtain ⟨hflag, hfix⟩ := h item (by simp)
    unfold runRuleLoop
    cases hx : DataIntegrityFlag.findExisting s item.lotId ft with
    | none => rw [hx] at hflag; simp at hflag
    | some f =>
      simp only [hx]
      have hupd : Lot.update s item.lotId upd = s := by
        unfold Lot.update
        have hmap : s.lots.map
            (fun l => if l.id == item.lotId then Lot.applyUpdates upd l else l) =
            s.lots := by
          apply map_id_of_mem
          intro l hl
          by_cases hy : l.id == item.lotId
          · simp only [hy, if_true]
            exact hfix l hl (by simpa using hy)
          · simp only [hy, Bool.false_eq_true, if_false]
        rw [hmap]
      rw [hupd,
        runRuleLoop_fixpoint rest s (fun it hit => h it (by simp [hit]))]
      simp [List.length_cons, Nat.add_comm]

theorem runRuleLoop_components (ft sev : String) (upd : Lot.Updates) :
    ∀ (items : List RuleItem) (s : DbState),
      (runRuleLoop ft sev upd s items).1.qualityRecords = s.qualityRecords ∧
      (runRuleLoop ft sev upd s items).1.shippingRecords = s.shippingRecords ∧
      (runRuleLoop ft sev upd s items).1.lots.map lotKeyData =
        s.lots.map lotKeyData
  | [], _ => ⟨rfl, rfl, rfl⟩
  | item :: rest, s => by
    unfold runRuleLoop
    cases hx : DataIntegrityFlag.findExisting s item.lotId ft with
    | none =>
      simp only [hx]
      obtain ⟨h1, h2, h3⟩ := runRuleLoop_components ft sev upd rest
        (Lot.update (DataIntegrityFlag.create s item.lotId ft sev
          item.description) item.lotId upd)
      exact ⟨h1, h2, h3.trans (update_lots_keyData _ _ _)⟩
    | some f =>
      simp only [hx]
      obtain ⟨h1, h2, h3⟩ := runRuleLoop_components ft sev upd rest
        (Lot.update s item.lotId upd)
      exact ⟨h1, h2, h3.trans (update_lots_keyData _ _ _)⟩

theorem filterMap_ext_mem {α β : Type} {f g : α → Option β} :
    ∀ {l : List α}, (∀ x ∈ l, f x = g x) → l.filterMap f = l.filterMap g
  | [], _ => rfl
  | a :: t, h => by
    rw [List.filterMap_cons, List.filterMap_cons, h a (by simp),
      filterMap_ext_mem (fun x hx => h x (by simp [hx]))]

theorem filter_map_keyData_congr (p : LotRow → Bool)
    (hp : ∀ a b, lotKeyData a = lotKeyData b → p a = p b)
    (g : LotRow → RuleItem)
    (hg : ∀ a b, lotKeyData a = lotKeyData b → g a = g b) :
    ∀ (ls lt : List LotRow), ls.map lotKeyData = lt.map lotKeyData →
      (ls.filter p).map g = (lt.filter p).map g
  | [], [], _ => rfl
  | [], _ :: _, h => by simp at h
  | _ :: _, [], h => by simp at h
  | a :: as, b :: bs, h => by
    simp only [List.map_cons, List.cons.injEq] at h
    obtain ⟨h1, h2⟩ := h
    have hpab := hp a b h1
    cases hb : p b with
    | true =>
      rw [List.filter_cons_of_pos (by rw [hpab, hb]),
        List.filter_cons_of_pos hb, List.map_cons, List.map_cons,
        hg a b h1, filter_map_keyData_congr p hp g hg as bs h2]
    | false =>
      rw [List.filter_cons_of_neg (by simp [hpab, hb]),
        List.filter_cons_of_neg (by simp [hb])]
      exact filter_map_keyData_congr p hp g hg as bs h2

theorem pendingItems_congr {s t : DbState}
    (hl : s.lots.map lotKeyData = t.lots.map lotKeyData)
    (hq : s.qualityRecords = t.qualityRecords) :
    pendingItems s = pendingItems t := by
  unfold pendingItems QualityInspectionRecord.findLotsWithoutQuality
    QualityInspectionRecord.existsForLot
  rw [← hq]
  exact filter_map_keyData_congr _
    (fun a b hab => by rw [keyData_id hab]) _
    (fun a b hab => by
      unfold pendingDescription
      rw [keyData_id hab, keyData_code hab, keyData_date hab])
    s.lots t.lots hl

theorem orphanedItems_congr {s t : DbState}
    (hl : s.lots.map lotKeyData = t.lots.map lotKeyData)
    (hs : s.shippingRecords = t.shippingRecords)
    (hq : s.qualityRecords = t.qualityRecords) :
    orphanedItems s = orphanedItems t := by
  unfold orphanedItems ShippingRecord.findOrphanedShipments
    QualityInspectionRecord.existsForLot
  rw [← hs, ← hq, List.map_filterMap, List.map_filterMap]
  apply filterMap_ext_mem
  intro r _
  have hopt := find?_keyData_congr (fun l => l.id == r.lot_id)
    (fun a b hab => by
      show (a.id == r.lot_id) = (b.id == r.lot_id)
      rw [keyData_id hab]) s.lots t.lots hl
  cases hfs : s.lots.find? (fun l => l.id == r.lot_id) with
  | none =>
    cases hft : t.lots.find? (fun l => l.id == r.lot_id) with
    | none => rfl
    | some b => rw [hfs, hft] at hopt; simp at hopt
  | some a =>
    cases hft : t.lots.find? (fun l => l.id == r.lot_id) with
    | none => rw [hfs, hft] at hopt; simp at hopt
    | some b =>
      rw [hfs, hft] at hopt
      have hab : lotKeyData a = lotKeyData b := by simpa using hopt
      simp only
      cases hqa : s.qualityRecords.any (fun q => q.lot_id == r.lot_id) with
      | true => simp
      | false =>
        unfold orphanedDescription
        simp only [Bool.false_eq_true, if_false, Option.map]
        rw [keyData_code hab]

theorem dateConflictItems_congr {s t : DbState}
    (hl : s.lots.map lotKeyData = t.lots.map lotKeyData)
    (hs : s.shippingRecords = t.shippingRecords) :
    dateConflictItems s = dateConflictItems t := by
  unfold dateConflictItems findDateConflicts
  rw [← hs, List.map_filterMap, List.map_filterMap]
  apply filterMap_ext_mem
  intro r _
  have hopt := find?_keyData_congr (fun l => l.id == r.lot_id)
    (fun a b hab => by
      show (a.id == r.lot_id) = (b.id == r.lot_id)
      rw [keyData_id hab]) s.lots t.lots hl
  cases hfs : s.lots.find? (fun l => l.id == r.lot_id) with
  | none =>
    cases hft : t.lots.find? (fun l => l.id == r.lot_id) with
    | none => rfl
    | some b => rw [hfs, hft] at hopt; simp at hopt
  | some a =>
    cases hft : t.lots.find? (fun l => l.id == r.lot_id) with
    | none => rw [hfs, hft] at hopt; simp at hopt
    | some b =>
      rw [hfs, hft] at hopt
      have hab : lotKeyData a = lotKeyData b := by simpa using hopt
      simp only
      rw [keyData_date hab]
      cases hc : chronoLt r.ship_date b.production_date with
      | true =>
        unfold dateConflictDescription
        simp only [if_true, Option.map]
        rw [keyData_id hab, keyData_code hab]
      | false => simp

theorem countP_zero_of_findExisting_none {s : DbState} {x : Nat} {ft : String}
    (h : DataIntegrityFlag.findExisting s x ft = none) :
    s.flags.countP (fun f =>
      f.lot_id == x && f.flag_type == ft && f.is_resolved == false) = 0 := by
  rw [List.countP_eq_zero]
  intro f hf
  exact List.find?_eq_none.mp h f hf

theorem atMostOne_flagCreate {s : DbState} {x : Nat} {ft : String}
    (sev desc : String) (h : AtMostOneUnresolved s)
    (hnone : DataIntegrityFlag.findExisting s x ft = none) :
    AtMostOneUnresolved (DataIntegrityFlag.create s x ft sev desc) := by
  intro lotId ftype
  unfold DataIntegrityFlag.create
  simp only [List.countP_append]
  have hnew : List.countP (fun f : FlagRow =>
      f.lot_id == lotId && f.flag_type == ftype && f.is_resolved == false)
      ([⟨x, ft, sev, desc, false⟩] : List FlagRow) =
      if (x == lotId && ft == ftype) = true then 1 else 0 := by
    rw [List.countP_singleton]
    simp
  rw [hnew]
  by_cases hk : (x == lotId && ft == ftype) = true
  · rw [if_pos hk]
    obtain ⟨h1, h2⟩ : x = lotId ∧ ft = ftype := by simpa using hk
    subst h1
    subst h2
    rw [countP_zero_of_findExisting_none hnone]
  · rw [if_neg hk]
    simpa using h lotId ftype

theorem atMostOne_runRuleLoop (ft sev : String) (upd : Lot.Updates) :
    ∀ (items : List RuleItem) (s : DbState), AtMostOneUnresolved s →
      AtMostOneUnresolved (runRuleLoop ft sev upd s items).1
  | [], _, h => h
  | item :: rest, s, h => by
    unfold runRuleLoop
    cases hx : DataIntegrityFlag.findExisting s item.lotId ft with
    | none =>
      simp only [hx]
      exact atMostOne_runRuleLoop ft sev upd rest _
        (atMostOne_flagCreate _ _ h hx)
    | some f =>
      simp only [hx]
      exact atMostOne_runRuleLoop ft sev upd rest _ h

theorem atMostOne_validationPass {s : DbState} (h : AtMostOneUnresolved s) :
    AtMostOneUnresolved (validationPass s) := by
  unfold validationPass runAllValidations validatePendingInspections
    validateOrphanedShipments validateDateLogic
  exact atMostOne_runRuleLoop _ _ _ _ _
    (atMostOne_runRuleLoop _ _ _ _ _ (atMostOne_runRuleLoop _ _ _ _ _ h))

/-- Claim C5: for every lot and flag type, the number of unresolved
integrity flags of that type on that lot stays at most one across any
number of sequential validation passes, from any starting state
satisfying the bound: each rule creates a flag only after findExisting
found no unresolved flag of that type for that lot, and nothing ever
unresolves a flag. -/
theorem at_most_one_unresolved_flag (s : DbState) (n : Nat)
    (h : AtMostOneUnresolved s) :
    AtMostOneUnresolved (validationPass^[n] s) := by
  induction n generalizing s with
  | zero => simpa using h
  | succ k ih =>
    rw [Function.iterate_succ_apply]
    exact ih _ (atMostOne_validationPass h)

/-- Claim C5 (witness): the invariant holds after two validation passes
over the concrete scenario store, whose flag table starts empty. -/
theorem at_most_one_unresolved_flag_witness :
    AtMostOneUnresolved (validationPass^[2] scenario3Ingested) :=
  at_most_one_unresolved_flag scenario3Ingested 2 (by
    intro lotId ftype
    rw [show scenario3Ingested.flags = [] from rfl]
    simp)

theorem applyUpdates_fix_pending_orphan (l : LotRow)
    (hfix : Lot.applyUpdates ⟨some true, none, none⟩ l = l) :
    Lot.applyUpdates ⟨some true, none, none⟩
      (Lot.applyUpdates ⟨none, some true, none⟩ l) =
      Lot.applyUpdates ⟨none, some true, none⟩ l := by
  rcases l with ⟨a, b, c, d, e, g⟩
  simp [Lot.applyUpdates] at hfix ⊢
  exact hfix

theorem applyUpdates_fix_pending_date (l : LotRow)
    (hfix : Lot.applyUpdates ⟨some true, none, none⟩ l = l) :
    Lot.applyUpdates ⟨some true, none, none⟩
      (Lot.applyUpdates ⟨none, none, some true⟩ l) =
      Lot.applyUpdates ⟨none, none, some true⟩ l := by
  rcases l with ⟨a, b, c, d, e, g⟩
  simp [Lot.applyUpdates] at hfix ⊢
  exact hfix

theorem applyUpdates_fix_orphan_date (l : LotRow)
    (hfix : Lot.applyUpdates ⟨none, some true, none⟩ l = l) :
    Lot.applyUpdates ⟨none, some true, none⟩
      (Lot.applyUpdates ⟨none, none, some true⟩ l) =
      Lot.applyUpdates ⟨none, none, some true⟩ l := by
  rcases l with ⟨a, b, c, d, e, g⟩
  simp [Lot.applyUpdates] at hfix ⊢
  exact hfix

/-- Claim C4: running the full Validation Rule Engine a second time over
the unchanged state left by a first run creates zero flags in every
rule (pending inspection, orphaned shipment, date conflict) and leaves
the store bit-for-bit identical: every scanned lot already carries its
unresolved flag and its rule boolean, so the second run only skips
flags and rewrites booleans to the values they already have. -/
theorem validation_second_run_noop (s : DbState) :
    (runAllValidations (validationPass s)).1 = validationPass s ∧
    ∀ res ∈ (runAllValidations (validationPass s)).2, res.flagsCreated = 0 := by
  have hsaEq : (validatePendingInspections s).1 =
      (runRuleLoop "Pending Inspection" "Warning" ⟨some true, none, none⟩ s
        (pendingItems s)).1 := rfl
  have compP := runRuleLoop_components "Pending Inspection" "Warning"
    ⟨some true, none, none⟩ (pendingItems s) s
  have compO := runRuleLoop_components "Orphaned Shipment" "Critical"
    ⟨none, some true, none⟩ (orphanedItems (validatePendingInspections s).1)
    (validatePendingInspections s).1
  have compD := runRuleLoop_components "Date Conflict" "Error"
    ⟨none, none, some true⟩
    (dateConflictItems
      (validateOrphanedShipments (validatePendingInspections s).1).1)
    (validateOrphanedShipments (validatePendingInspections s).1).1
  have hs1 : validationPass s =
      (validateDateLogic
        (validateOrphanedShipments (validatePendingInspections s).1).1).1 := rfl
  -- component chains from s to the state after the first full run
  have hQ1 : (validationPass s).qualityRecords = s.qualityRecords := by
    rw [hs1]
    exact (compD.1.trans compO.1).trans compP.1
  have hS1 : (validationPass s).shippingRecords = s.shippingRecords := by
    rw [hs1]
    exact (compD.2.1.trans compO.2.1).trans compP.2.1
  have hL1 : (validationPass s).lots.map lotKeyData =
      s.lots.map lotKeyData := by
    rw [hs1]
    exact (compD.2.2.trans compO.2.2).trans compP.2.2
  have hQa : (validationPass s).qualityRecords =
      (validatePendingInspections s).1.qualityRecords := by
    rw [hs1]
    exact compD.1.trans compO.1
  have hSa : (validationPass s).shippingRecords =
      (validatePendingInspections s).1.shippingRecords := by
    rw [hs1]
    exact compD.2.1.trans compO.2.1
  have hLa : (validationPass s).lots.map lotKeyData =
      (validatePendingInspections s).1.lots.map lotKeyData := by
    rw [hs1]
    exact compD.2.2.trans compO.2.2
  have hQb : (validationPass s).qualityRecords =
      (validateOrphanedShipments (validatePendingInspections s).1).1.qualityRecords := by
    rw [hs1]
    exact compD.1
  have hSb : (validationPass s).shippingRecords =
      (validateOrphanedShipments (validatePendingInspections s).1).1.shippingRecords := by
    rw [hs1]
    exact compD.2.1
  have hLb : (validationPass s).lots.map lotKeyData =
      (validateOrphanedShipments (validatePendingInspections s).1).1.lots.map
        lotKeyData := by
    rw [hs1]
    exact compD.2.2
  -- coverage of the three scan sets in the final state of the first run
  have covP : ∀ it ∈ pendingItems s,
      RuleCovered "Pending Inspection" ⟨some true, none, none⟩
        (validationPass s) it.lotId := by
    intro it hit
    rw [hs1]
    exact ruleCovered_runRuleLoop "Date Conflict" "Error"
      applyUpdates_fix_pending_date _ _ _
      (ruleCovered_runRuleLoop "Orphaned Shipment" "Critical"
        applyUpdates_fix_pending_orphan _ _ _
        (ruleCovered_estab (fun l _ => applyUpdates_idem _ l)
          (pendingItems s) s it hit))
  have covO : ∀ it ∈ orphanedItems (validatePendingInspections s).1,
      RuleCovered "Orphaned Shipment" ⟨none, some true, none⟩
        (validationPass s) it.lotId := by
    intro it hit
    rw [hs1]
    exact ruleCovered_runRuleLoop "Date Conflict" "Error"
      applyUpdates_fix_orphan_date _ _ _
      (ruleCovered_estab (fun l _ => applyUpdates_idem _ l)
        (orphanedItems (validatePendingInspections s).1)
        (validatePendingInspections s).1 it hit)
  have covD : ∀ it ∈ dateConflictItems
      (validateOrphanedShipments (validatePendingInspections s).1).1,
      RuleCovered "Date Conflict" ⟨none, none, some true⟩
        (validationPass s) it.lotId := by
    intro it hit
    rw [hs1]
    exact ruleCovered_estab (fun l _ => applyUpdates_idem _ l)
      (dateConflictItems
        (validateOrphanedShipments (validatePendingInspections s).1).1)
      (validateOrphanedShipments (validatePendingInspections s).1).1 it hit
  -- the second-run scan sets coincide with the first-run ones
  have hPitems : pendingItems (validationPass s) = pendingItems s :=
    pendingItems_congr hL1 hQ1
  have hOitems : orphanedItems (validationPass s) =
      orphanedItems (validatePendingInspections s).1 :=
    orphanedItems_congr hLa hSa hQa
  have hDitems : dateConflictItems (validationPass s) =
      dateConflictItems
        (validateOrphanedShipments (validatePendingInspections s).1).1 :=
    dateConflictItems_congr hLb hSb
  -- second run, rule by rule
  have r2P : validatePendingInspections (validationPass s) =
      (validationPass s, ⟨"Pending Inspections", 0,
        (pendingItems (validationPass s)).length⟩) := by
    unfold validatePendingInspections
    rw [hPitems]
    rw [runRuleLoop_fixpoint (pendingItems s) (validationPass s)
      (fun it hit => covP it hit)]
  have r2O : validateOrphanedShipments (validationPass s) =
      (validationPass s, ⟨"Orphaned Shipments", 0,
        (orphanedItems (validationPass s)).length⟩) := by
    unfold validateOrphanedShipments
    rw [hOitems]
    rw [runRuleLoop_fixpoint _ (validationPass s) (fun it hit => covO it hit)]
  have r2D : validateDateLogic (validationPass s) =
      (validationPass s, ⟨"Date Logic Validation", 0,
        (dateConflictItems (validationPass s)).length⟩) := by
    unfold validateDateLogic
    rw [hDitems]
    rw [runRuleLoop_fixpoint _ (validationPass s) (fun it hit => covD it hit)]
  have hall : runAllValidations (validationPass s) =
      (validationPass s,
       [⟨"Pending Inspections", 0, (pendingItems (validationPass s)).length⟩,
        ⟨"Orphaned Shipments", 0, (orphanedItems (validationPass s)).length⟩,
        ⟨"Date Logic Validation", 0,
          (dateConflictItems (validationPass s)).length⟩]) := by
    unfold runAllValidations
    rw [r2P]
    simp only
    rw [r2O]
    simp only
    rw [r2D]
  rw [hall]
  refine ⟨rfl, ?_⟩
  intro res hres
  rcases List.mem_cons.mp hres with rfl | hres
  · rfl
  rcases List.mem_cons.mp hres with rfl | hres
  · rfl
  rcases List.mem_cons.mp hres with rfl | hres
  · rfl
  simp at hres

/-- Claim C1 (counterexample): end-to-end scenario 3 does not behave as
claimed.  After the production row (lot LOT-9, production date
2026-02-10) and the shipping row (ship date 2026-02-05) have gone
through the pipeline and the full Validation Rule Engine has run, no
Date Conflict flag exists at all, the date rule created zero flags, and
the status derived by lot search for LOT-9 is Pending Inspection, not
Data Conflict. -/
theorem scenario3_counterexample :
    ((runAllValidations scenario3Ingested).1.flags.filter
      (fun f => f.flag_type == "Date Conflict")).length = 0 ∧
    (runAllValidations scenario3Ingested).2.map
      (fun r => (r.name, r.flagsCreated)) =
      [("Pending Inspections", 2), ("Orphaned Shipments", 1),
       ("Date Logic Validation", 0)] ∧
    (searchLotByCode (runAllValidations scenario3Ingested).1 "LOT-9").map
      (fun x => x.2) = some "Pending Inspection" ∧
    (searchLotByCode (runAllValidations scenario3Ingested).1 "LOT-9").map
      (fun x => x.2) ≠ some "Data Conflict" := by
  refine ⟨by decide, by decide, by decide, by decide⟩

/-- Claim C1 (amended): in end-to-end scenario 3 the shipping row is
keyed by its SHIP date, so it attaches to a second lot (LOT-9,
2026-02-05) whose production date equals the ship date, instead of the
production lot (LOT-9, 2026-02-10).  The Validation Rule Engine then
creates an unresolved Critical Orphaned Shipment flag for that shipping
lot and unresolved Warning Pending Inspection flags for both lots, but
no Date Conflict flag — the date-conflict condition cannot hold on
pipeline-ingested state — and the status derived for LOT-9 (the lot
with the latest production date) is Pending Inspection. -/
theorem scenario3_actual_behavior :
    scenario3Ingested.lots.map lotKeyData =
      [(0, "LOT-9", "2026-02-10"), (1, "LOT-9", "2026-02-05")] ∧
    scenario3Ingested.shippingRecords.map (fun r => (r.lot_id, r.ship_date)) =
      [(1, "2026-02-05")] ∧
    (runAllValidations scenario3Ingested).1.flags.map
      (fun f => (f.lot_id, f.flag_type, f.severity, f.is_resolved)) =
      [(0, "Pending Inspection", "Warning", false),
       (1, "Pending Inspection", "Warning", false),
       (1, "Orphaned Shipment", "Critical", false)] ∧
    (searchLotByCode (runAllValidations scenario3Ingested).1 "LOT-9").map
      (fun x => (x.1.id, x.2)) = some (0, "Pending Inspection") := by
  refine ⟨by decide, by decide, by decide, by decide⟩

/-- Claim C4 (witness): the second run over the validated scenario store
leaves it unchanged, and the pending-inspection rule result of that
second run, which reports two skips, created zero flags. -/
theorem validation_second_run_noop_witness :
    (runAllValidations (validationPass scenario3Ingested)).1 =
      validationPass scenario3Ingested ∧
    (⟨"Pending Inspections", 0, 2⟩ : RuleResult).flagsCreated = 0 :=
  ⟨(validation_second_run_noop scenario3Ingested).1,
   (validation_second_run_noop scenario3Ingested).2
     ⟨"Pending Inspections", 0, 2⟩ (by decide)⟩
